import Mathlib

/-!
Verification of the `software-render` repository: a CPU 3D triangle
rasterization pipeline written in Rust.

Shallow embedding conventions:
* `f32` values are modelled by `ℚ` (exact arithmetic; the spec's
  "within floating tolerance" claims become exact statements).
* `i32`/`u8`/`u32` values are modelled by `ℤ`/`ℕ`; Rust's `as i32`
  truncation of a float toward zero is `ratTrunc`.
* A Rust operation that can panic is modelled as returning `Option`,
  with `none` standing for the panic / fatal path.
* Rust iterators are modelled as explicit iterator states with a
  fuel-driven `run` function producing the list of yielded items.
-/

namespace SoftwareRender

/-- Rust `as i32` applied to a (finite) float value truncates toward zero;
on exact rationals this is floor for nonnegative and ceiling for negative
values. -/
def ratTrunc (q : ℚ) : ℤ :=
  if q < 0 then ⌈q⌉ else ⌊q⌋

/-! ## `src/math/matrices.rs`

This file defines its own (non-generic, `f32`) `Vector3`, `Vector4` and
`Matrix4`.  We model them in namespace `MatM`. -/

namespace MatM

/-- `matrices.rs` `Vector3` (f32 components, modelled as ℚ). -/
structure Vector3 where
  x : ℚ
  y : ℚ
  z : ℚ
deriving DecidableEq, Repr

/-- `matrices.rs` `Vector4` (f32 components, modelled as ℚ). -/
structure Vector4 where
  x : ℚ
  y : ℚ
  z : ℚ
  w : ℚ
deriving DecidableEq, Repr

/-- `matrices.rs` `impl From<Vector4> for Vector3`: drops `w`, no division. -/
def Vector3.ofVector4 (value : Vector4) : Vector3 :=
  ⟨value.x, value.y, value.z⟩

/-- `matrices.rs` `Vector4::from_xyz`: sets `w = 1`. -/
def Vector4.from_xyz (x y z : ℚ) : Vector4 :=
  ⟨x, y, z, 1⟩

/-- `matrices.rs` `impl Mul<Vector4> for Vector4`: dot product. -/
def Vector4.dot (a b : Vector4) : ℚ :=
  a.x * b.x + a.y * b.y + a.z * b.z + a.w * b.w

/-- `matrices.rs` `Matrix4`: four row vectors. -/
structure Matrix4 where
  x : Vector4
  y : Vector4
  z : Vector4
  w : Vector4
deriving DecidableEq, Repr

/-- `matrices.rs` `Matrix4::identity`. -/
def Matrix4.identity : Matrix4 :=
  ⟨⟨1, 0, 0, 0⟩, ⟨0, 1, 0, 0⟩, ⟨0, 0, 1, 0⟩, ⟨0, 0, 0, 1⟩⟩

/-- `matrices.rs` `Matrix4::projection(aspect, fov, z_near, z_far)`.

The source computes `f = 1.0 / (fov / 2.0).tan()`.  The tangent is a
transcendental function of the `fov` argument; we take the value
`fovHalfTan = (fov / 2).tan()` as the parameter (for the claim's instance
`fov = π/2` it equals `1` exactly).  The remaining arithmetic follows the
source: `a = 1 / aspect`, `q = z_far / (z_far - z_near)`, and the four rows
`(a*f, 0, 0, 0)`, `(0, f, 0, 0)`, `(0, 0, q, -z_near*q)`, `(0, 0, 1, 0)`. -/
def Matrix4.projection (aspect fovHalfTan z_near z_far : ℚ) : Matrix4 :=
  let a := 1 / aspect
  let f := 1 / fovHalfTan
  let q := z_far / (z_far - z_near)
  ⟨⟨a * f, 0, 0, 0⟩, ⟨0, f, 0, 0⟩, ⟨0, 0, q, -z_near * q⟩, ⟨0, 0, 1, 0⟩⟩

/-- `matrices.rs` `impl Mul<Vector4> for Matrix4`: row·vector products. -/
def Matrix4.mulVec (m : Matrix4) (rhs : Vector4) : Vector4 :=
  ⟨m.x.dot rhs, m.y.dot rhs, m.z.dot rhs, m.w.dot rhs⟩

/-- `matrices.rs` `impl Mul<Matrix4> for Matrix4`: row·column dot products. -/
def Matrix4.mulMat (m rhs : Matrix4) : Matrix4 :=
  ⟨⟨m.x.dot rhs.x, m.x.dot rhs.y, m.x.dot rhs.z, m.x.dot rhs.w⟩,
   ⟨m.y.dot rhs.x, m.y.dot rhs.y, m.y.dot rhs.z, m.y.dot rhs.w⟩,
   ⟨m.z.dot rhs.x, m.z.dot rhs.y, m.z.dot rhs.z, m.z.dot rhs.w⟩,
   ⟨m.w.dot rhs.x, m.w.dot rhs.y, m.w.dot rhs.z, m.w.dot rhs.w⟩⟩

end MatM

/-! ## `src/math/vectors.rs`

Generic vectors over the `Number<T>` trait; the `f32` instantiation is
modelled at `ℚ`, the `i32` instantiation at `ℤ`.  `Vector2` is used at both
element types (storage only at `ℤ`), so it stays generic; `Vector3` and
`Vector4` are only needed at `f32` and are modelled monomorphically. -/

namespace VecM

/-- `vectors.rs` `Vector2<T>`. -/
structure Vector2 (α : Type) where
  x : α
  y : α
deriving DecidableEq, Repr

/-- `vectors.rs` `impl Add for Vector2` (at the f32 instance). -/
def Vector2.add (a b : Vector2 ℚ) : Vector2 ℚ :=
  ⟨a.x + b.x, a.y + b.y⟩

/-- `vectors.rs` `impl Neg for Vector2` (at the f32 instance). -/
def Vector2.neg (a : Vector2 ℚ) : Vector2 ℚ :=
  ⟨-a.x, -a.y⟩

/-- `vectors.rs` `impl Sub for Vector2`: `self + (-rhs)`. -/
def Vector2.sub (a b : Vector2 ℚ) : Vector2 ℚ :=
  a.add b.neg

/-- `vectors.rs` `Vector3<T>` at the f32 instance. -/
structure Vector3 where
  x : ℚ
  y : ℚ
  z : ℚ
deriving DecidableEq, Repr

/-- `vectors.rs` `Vector3::cross`. -/
def Vector3.cross (a rhs : Vector3) : Vector3 :=
  ⟨a.y * rhs.z - a.z * rhs.y,
   a.z * rhs.x - a.x * rhs.z,
   a.x * rhs.y - a.y * rhs.x⟩

/-- `vectors.rs` `impl Add for Vector3`. -/
def Vector3.add (a rhs : Vector3) : Vector3 :=
  ⟨a.x + rhs.x, a.y + rhs.y, a.z + rhs.z⟩

/-- `vectors.rs` `impl Neg for Vector3`. -/
def Vector3.neg (a : Vector3) : Vector3 :=
  ⟨-a.x, -a.y, -a.z⟩

/-- `vectors.rs` `impl Sub for Vector3`: `self + (-rhs)`. -/
def Vector3.sub (a rhs : Vector3) : Vector3 :=
  a.add rhs.neg

/-- `vectors.rs` `impl Mul for Vector3`: dot product. -/
def Vector3.dot (a rhs : Vector3) : ℚ :=
  a.x * rhs.x + a.y * rhs.y + a.z * rhs.z

/-- `vectors.rs` `impl Div<T> for Vector3`: componentwise division. -/
def Vector3.divScalar (a : Vector3) (rhs : ℚ) : Vector3 :=
  ⟨a.x / rhs, a.y / rhs, a.z / rhs⟩

/-- `vectors.rs` `Vector4<T>` at the f32 instance. -/
structure Vector4 where
  x : ℚ
  y : ℚ
  z : ℚ
  w : ℚ
deriving DecidableEq, Repr

/-- `vectors.rs` `impl From<Vector4<T>> for Vector3<T>`: divides the three
components by `w`, with a divisor of `1` when `w` is zero. -/
def Vector3.ofVector4 (value : Vector4) : Vector3 :=
  let div := if value.w = 0 then 1 else value.w
  ⟨value.x / div, value.y / div, value.z / div⟩

/-- `vectors.rs` `impl From<Vector3<T>> for Vector4<T>`: appends `w = 1`. -/
def Vector4.ofVector3 (value : Vector3) : Vector4 :=
  ⟨value.x, value.y, value.z, 1⟩

/-- `vectors.rs` `impl From<Vector3<T>> for Vector2<T>`: drops `z`. -/
def Vector2.ofVector3 (value : Vector3) : Vector2 ℚ :=
  ⟨value.x, value.y⟩

/-- `vectors.rs` `impl From<Vector2<T>> for Vector3<T>`: appends `z = 0`. -/
def Vector3.ofVector2 (value : Vector2 ℚ) : Vector3 :=
  ⟨value.x, value.y, 0⟩

end VecM

/-! ## `src/buffers.rs` -/

/-- Rust `as usize` applied to an `i32` on a 64-bit target: sign-extend and
reinterpret, i.e. reduce modulo `2^64`. -/
def usizeOfI32 (i : ℤ) : ℕ :=
  (i % (2 ^ 64)).toNat

/-- Two's-complement reduction of an integer into the `i32` range
`[-2^31, 2^31)`: the result of a Rust `i32` arithmetic operation in release
builds (debug builds panic on the overflow instead; whenever the exact
value already fits in `i32` the two profiles agree and this is the
identity). -/
def wrapI32 (i : ℤ) : ℤ :=
  (i + 2 ^ 31) % 2 ^ 32 - 2 ^ 31

/-- `buffers.rs` `Buffer<T>`: a `Vec` plus a `Vector2<i32>` size. -/
structure Buffer (α : Type) where
  data : List α
  size : VecM.Vector2 ℤ

/-- `buffers.rs` `Buffer::new`: rejects non-positive dimensions, otherwise
allocates `(size.x * size.y) as usize` copies of `init` (the product is
`i32` arithmetic, hence wrapped). -/
def Buffer.new {α : Type} (size : VecM.Vector2 ℤ) (init : α) :
    Option (Buffer α) :=
  if size.x ≤ 0 ∨ size.y ≤ 0 then none
  else some ⟨List.replicate (usizeOfI32 (wrapI32 (size.x * size.y))) init,
    size⟩

/-- The linear index `(position.x + position.y * self.size.x) as usize`
computed by `set_pixel`/`get_pixel`: the multiplication and the addition
are `i32` operations (wrapping in release builds, a panic in debug builds
when they overflow), and the final cast sign-extends to `usize`. -/
def Buffer.index {α : Type} (b : Buffer α) (position : VecM.Vector2 ℤ) : ℕ :=
  usizeOfI32 (wrapI32 (position.x + wrapI32 (position.y * b.size.x)))

/-- `buffers.rs` `Buffer::get_pixel`: `self.data[index]`; `none` models the
panic of an out-of-bounds `Vec` access. -/
def Buffer.get_pixel {α : Type} (b : Buffer α) (position : VecM.Vector2 ℤ) :
    Option α :=
  b.data.get? (b.index position)

/-- `buffers.rs` `Buffer::set_pixel`: `self.data[index] = value`; `none`
models the panic of an out-of-bounds `Vec` store. -/
def Buffer.set_pixel {α : Type} (b : Buffer α) (position : VecM.Vector2 ℤ)
    (value : α) : Option (Buffer α) :=
  if b.index position < b.data.length then
    some ⟨b.data.set (b.index position) value, b.size⟩
  else none

end SoftwareRender

namespace SoftwareRender

/-- The projected point of claim C1: `projection(1, fov = π/2, 1, 100)`
applied to `(1, 1, -2, 1)`.  At `fov = π/2` the half-angle tangent is `1`. -/
def c1Projected : MatM.Vector4 :=
  (MatM.Matrix4.projection 1 1 1 100).mulVec ⟨1, 1, -2, 1⟩


/-! ## `src/math/mod.rs`: `VecI2`, `RectI2`, `RectI2Iter` -/

/-- `math/mod.rs` `VecI2`: integer 2D vector (`i32` components). -/
structure VecI2 where
  x : ℤ
  y : ℤ
deriving DecidableEq, Repr

/-- `math/mod.rs` `VecI2::cross`: computed in `f32` after casting both
operands, hence ℚ-valued in the model. -/
def VecI2.cross (a another : VecI2) : ℚ :=
  (a.x : ℚ) * (another.y : ℚ) - (a.y : ℚ) * (another.x : ℚ)

/-- `math/mod.rs` `VecI2::scale`: multiply each component by an `f32`
factor and truncate back to `i32`. -/
def VecI2.scale (a : VecI2) (factor : ℚ) : VecI2 :=
  ⟨ratTrunc ((a.x : ℚ) * factor), ratTrunc ((a.y : ℚ) * factor)⟩

/-- `math/mod.rs` `impl Add for VecI2`. -/
def VecI2.add (a another : VecI2) : VecI2 :=
  ⟨a.x + another.x, a.y + another.y⟩

/-- `math/mod.rs` `impl Neg for VecI2`. -/
def VecI2.neg (a : VecI2) : VecI2 :=
  ⟨-a.x, -a.y⟩

/-- `math/mod.rs` `impl Sub for VecI2`: `self + (-another)`. -/
def VecI2.sub (a another : VecI2) : VecI2 :=
  a.add another.neg

/-- `math/mod.rs` `RectI2`: integer rectangle given by `start` and `end`
corners (`end` is a Lean keyword, rendered `endp`). -/
structure RectI2 where
  start : VecI2
  endp : VecI2
deriving DecidableEq, Repr

/-- `math/mod.rs` `RectI2::new`: requires both components of `end - start`
to be strictly positive. -/
def RectI2.new (start endp : VecI2) : Option RectI2 :=
  let diff := endp.sub start
  if diff.x > 0 ∧ diff.y > 0 then some ⟨start, endp⟩ else none

/-- `math/mod.rs` `RectI2::size`: `end - start`. -/
def RectI2.size (r : RectI2) : VecI2 :=
  r.endp.sub r.start

/-- `math/mod.rs` `RectI2Iter`: iteration state (rectangle, cached size,
running index). -/
structure RectI2Iter where
  rect : RectI2
  size : VecI2
  index : ℤ
deriving DecidableEq, Repr

/-- `math/mod.rs` `RectI2Iter::new`. -/
def RectI2Iter.new (rect : RectI2) : RectI2Iter :=
  ⟨rect, rect.size, 0⟩

/-- `math/mod.rs` `impl Iterator for RectI2Iter`: one `next()` step.
Returns the yielded pixel and the successor state, or `none` when the
index has passed `size.x * size.y`.  Rust `%` and `/` on `i32` truncate
toward zero, i.e. `Int.tmod`/`Int.tdiv`. -/
def RectI2Iter.next (it : RectI2Iter) : Option (VecI2 × RectI2Iter) :=
  if it.index > it.size.x * it.size.y then none
  else
    let start := it.rect.start
    let output : VecI2 :=
      ⟨start.x + Int.tmod it.index it.size.x,
       start.y + Int.tdiv it.index it.size.x⟩
    some (output, ⟨it.rect, it.size, it.index + 1⟩)

/-- Drive a `RectI2Iter` with the given amount of fuel, collecting the
yielded pixels. -/
def RectI2Iter.run : ℕ → RectI2Iter → List VecI2
  | 0, _ => []
  | fuel + 1, it =>
    match it.next with
    | none => []
    | some (v, it') => v :: RectI2Iter.run fuel it'

/-- All pixels a `RectI2Iter` yields from its current state (fuel large
enough to exhaust the iterator). -/
def RectI2Iter.toList (it : RectI2Iter) : List VecI2 :=
  RectI2Iter.run ((it.size.x * it.size.y + 1 - it.index).toNat + 1) it

/-! ## `src/triangles.rs`: integer triangle setup and rasterizer -/

/-- `triangles.rs` `TripletI2`. -/
abbrev TripletI2 := VecI2 × VecI2 × VecI2

/-- `triangles.rs` `RasterTriangle`. -/
structure RasterTriangle where
  vertices : TripletI2
  segments : TripletI2
deriving DecidableEq, Repr

/-- `triangles.rs` `RasterTriangle::segments_from_points`. -/
def RasterTriangle.segments_from_points (points : TripletI2) : TripletI2 :=
  (points.2.1.sub points.1, points.2.2.sub points.2.1,
    points.1.sub points.2.2)

/-- `triangles.rs` `RasterTriangle::check_vertices`: centroid (with the
`scale(1.0/3.0)` truncation) and the three strict cross-product tests. -/
def RasterTriangle.check_vertices (vertices segments : TripletI2) : Prop :=
  let middle := ((vertices.1.add vertices.2.1).add vertices.2.2).scale (1/3)
  let deltas := (middle.sub vertices.1, middle.sub vertices.2.1,
    middle.sub vertices.2.2)
  segments.1.cross deltas.1 > 0 ∧ segments.2.1.cross deltas.2.1 > 0 ∧
    segments.2.2.cross deltas.2.2 > 0

instance (vertices segments : TripletI2) :
    Decidable (RasterTriangle.check_vertices vertices segments) := by
  unfold RasterTriangle.check_vertices
  exact instDecidableAnd

/-- `triangles.rs` `RasterTriangle::new`. -/
def RasterTriangle.new (first second third : VecI2) :
    Option RasterTriangle :=
  let vertices : TripletI2 := (first, second, third)
  let segments := RasterTriangle.segments_from_points vertices
  if RasterTriangle.check_vertices vertices segments then
    some ⟨vertices, segments⟩
  else none

/-- `triangles.rs` `Fragment`: integer pixel position and three
`f32` attributes. -/
structure Fragment where
  position : VecI2
  attributes : ℚ × ℚ × ℚ
deriving DecidableEq, Repr

/-- `triangles.rs` `Rasterizer`. -/
structure Rasterizer where
  iter : RectI2Iter
  area : ℚ
  starts : ℤ × ℤ × ℤ
  deltas : TripletI2
deriving DecidableEq, Repr

/-- `triangles.rs` `min_max_from_three`. -/
def min_max_from_three (first second third : ℤ) : ℤ × ℤ :=
  (min (min first second) third, max (max first second) third)

/-- `triangles.rs` `Rasterizer::get_area`: bounding rectangle of the three
vertices (an `Option`, since `RectI2::new` can reject). -/
def Rasterizer.get_area (triangle : RasterTriangle) : Option RectI2 :=
  let first := triangle.vertices.1
  let second := triangle.vertices.2.1
  let third := triangle.vertices.2.2
  let mmx := min_max_from_three first.x second.x third.x
  let mmy := min_max_from_three first.y second.y third.y
  RectI2.new ⟨mmx.1, mmy.1⟩ ⟨mmx.2, mmy.2⟩

/-- `triangles.rs` `Rasterizer::calculate_starts`: the three edge values at
`start`, computed as `f32` crosses and cast back with `as i32`. -/
def Rasterizer.calculate_starts (triangle : RasterTriangle) (start : VecI2) :
    ℤ × ℤ × ℤ :=
  let vs := (start.sub triangle.vertices.1, start.sub triangle.vertices.2.1,
    start.sub triangle.vertices.2.2)
  (ratTrunc (triangle.segments.1.cross vs.1),
   ratTrunc (triangle.segments.2.1.cross vs.2.1),
   ratTrunc (triangle.segments.2.2.cross vs.2.2))

/-- `triangles.rs` `Rasterizer::calculate_deltas`. -/
def Rasterizer.calculate_deltas (triangle : RasterTriangle) : TripletI2 :=
  (⟨-triangle.segments.1.y, triangle.segments.1.x⟩,
   ⟨-triangle.segments.2.1.y, triangle.segments.2.1.x⟩,
   ⟨-triangle.segments.2.2.y, triangle.segments.2.2.x⟩)

/-- `triangles.rs` `Rasterizer::new`. -/
def Rasterizer.new (triangle : RasterTriangle) : Option Rasterizer :=
  (Rasterizer.get_area triangle).bind fun rect =>
    let starts := Rasterizer.calculate_starts triangle rect.start
    let iter := RectI2Iter.new rect
    let area := |triangle.segments.1.cross triangle.segments.2.1|
    some ⟨iter, area, starts, Rasterizer.calculate_deltas triangle⟩

/-- `triangles.rs` `Rasterizer::new_with_cropping`: clips the bounding
rectangle to `[0, crop_area.x] × [0, crop_area.y]` before iterating. -/
def Rasterizer.new_with_cropping (triangle : RasterTriangle)
    (crop_area : VecI2) : Option Rasterizer :=
  (Rasterizer.get_area triangle).bind fun rect =>
    let min_x := max rect.start.x 0
    let min_y := max rect.start.y 0
    let max_x := min rect.endp.x crop_area.x
    let max_y := min rect.endp.y crop_area.y
    let start : VecI2 := ⟨min_x, min_y⟩
    let endp : VecI2 := ⟨max_x, max_y⟩
    let starts := Rasterizer.calculate_starts triangle start
    (RectI2.new start endp).bind fun rect2 =>
      let area := |triangle.segments.1.cross triangle.segments.2.1|
      some ⟨RectI2Iter.new rect2, area, starts,
        Rasterizer.calculate_deltas triangle⟩

/-- The three edge values `(cof0, cof1, cof2)` the rasterizer computes at a
pixel inside `Rasterizer::next` (the `starts.i + delta.x * deltas.i.x +
delta.y * deltas.i.y` accumulators; `starts.0`/`deltas.0` feed `cof2`,
`starts.1` feeds `cof0` and `starts.2` feeds `cof1`, as in the source). -/
def Rasterizer.cofs (r : Rasterizer) (position : VecI2) : ℤ × ℤ × ℤ :=
  let start := r.iter.rect.start
  let delta := position.sub start
  (r.starts.2.1 + delta.x * r.deltas.2.1.x + delta.y * r.deltas.2.1.y,
   r.starts.2.2 + delta.x * r.deltas.2.2.x + delta.y * r.deltas.2.2.y,
   r.starts.1 + delta.x * r.deltas.1.x + delta.y * r.deltas.1.y)

/-- The per-pixel body of `triangles.rs` `Rasterizer::next`: yield a
fragment iff all three edge values are `>= 0`, with attributes
`cof_i as f32 / area`. -/
def Rasterizer.fragAt (r : Rasterizer) (position : VecI2) :
    Option Fragment :=
  let c := r.cofs position
  if c.1 ≥ 0 ∧ c.2.1 ≥ 0 ∧ c.2.2 ≥ 0 then
    some ⟨position,
      ((c.1 : ℚ) / r.area, (c.2.1 : ℚ) / r.area, (c.2.2 : ℚ) / r.area)⟩
  else none

/-- All fragments a `Rasterizer` yields: `next` repeatedly `find_map`s the
per-pixel body over the rectangle iterator, which is `filterMap` over the
remaining pixel stream. -/
def Rasterizer.fragments (r : Rasterizer) : List Fragment :=
  (RectI2Iter.toList r.iter).filterMap r.fragAt


/-! ## `src/raster.rs`: float triangle setup and scan converter -/

/-- `raster.rs` `Rect2`: float rectangle (`end` rendered `endp`). -/
structure Rect2 where
  start : VecM.Vector2 ℚ
  endp : VecM.Vector2 ℚ
deriving DecidableEq, Repr

/-- `raster.rs` `Rect2::new`: rejects rectangles whose extent along either
axis is below 1 in absolute value. -/
def Rect2.new (start endp : VecM.Vector2 ℚ) : Option Rect2 :=
  let diff := endp.sub start
  if |diff.x| < 1 ∨ |diff.y| < 1 then none else some ⟨start, endp⟩

/-- `raster.rs` `Rect2Iter`: integer iteration state obtained by truncating
the float corners and normalizing so `start ≤ end` on both axes. -/
structure Rect2Iter where
  start : VecM.Vector2 ℤ
  endp : VecM.Vector2 ℤ
  current : VecM.Vector2 ℤ
deriving DecidableEq, Repr

/-- `raster.rs` `Rect2Iter::new`: truncate the corners with `as i32`, then
swap coordinates so that `start.x ≤ end.x` and `start.y ≤ end.y`;
iteration begins at `start`. -/
def Rect2Iter.new (rect : Rect2) : Rect2Iter :=
  let s : VecM.Vector2 ℤ := ⟨ratTrunc rect.start.x, ratTrunc rect.start.y⟩
  let e : VecM.Vector2 ℤ := ⟨ratTrunc rect.endp.x, ratTrunc rect.endp.y⟩
  let sex := if s.x < e.x then (s.x, e.x) else (e.x, s.x)
  let sey := if s.y < e.y then (s.y, e.y) else (e.y, s.y)
  ⟨⟨sex.1, sey.1⟩, ⟨sex.2, sey.2⟩, ⟨sex.1, sey.1⟩⟩

/-- `raster.rs` `impl Iterator for Rect2Iter`: one `next()` step.  Yields
`current`, then advances x, wrapping to the next row after `end.x`. -/
def Rect2Iter.next (it : Rect2Iter) : Option (VecM.Vector2 ℤ × Rect2Iter) :=
  if it.current.y > it.endp.y then none
  else
    let result := it.current
    let cx := it.current.x + 1
    let newCurrent : VecM.Vector2 ℤ :=
      if cx > it.endp.x then ⟨it.start.x, it.current.y + 1⟩
      else ⟨cx, it.current.y⟩
    some (result, ⟨it.start, it.endp, newCurrent⟩)

/-- Drive a `Rect2Iter` with the given amount of fuel, collecting the
yielded pixels. -/
def Rect2Iter.run : ℕ → Rect2Iter → List (VecM.Vector2 ℤ)
  | 0, _ => []
  | fuel + 1, it =>
    match it.next with
    | none => []
    | some (v, it') => v :: Rect2Iter.run fuel it'

/-- All pixels a `Rect2Iter` yields from its current state (fuel large
enough to exhaust the iterator). -/
def Rect2Iter.toList (it : Rect2Iter) : List (VecM.Vector2 ℤ) :=
  Rect2Iter.run
    (((it.endp.y + 1 - it.current.y).toNat + 1) *
      ((it.endp.x + 1 - it.start.x).toNat + 1) + 1) it

/-- `raster.rs` `Triplet` / `Triplet4` (arrays of three vectors, modelled
as triples). -/
abbrev Triplet := VecM.Vector3 × VecM.Vector3 × VecM.Vector3

/-- `raster.rs` `Triplet4`. -/
abbrev Triplet4 := VecM.Vector4 × VecM.Vector4 × VecM.Vector4

/-- `raster.rs` `Triangle`. -/
structure Triangle where
  vertices : Triplet
  segments : Triplet
  ws : VecM.Vector3
  rect : Rect2
deriving DecidableEq, Repr

/-- `raster.rs` `Triangle::segments`. -/
def Triangle.segmentsOf (vertices : Triplet) : Triplet :=
  (vertices.2.1.sub vertices.1, vertices.2.2.sub vertices.2.1,
    vertices.1.sub vertices.2.2)

/-- `raster.rs` `Triangle::check`: centroid test with non-strict
rejection — the triangle fails only if some `cross(segment, delta).z`
is `< 0`. -/
def Triangle.check (vertices segments : Triplet) : Prop :=
  let middle := ((vertices.1.add vertices.2.1).add vertices.2.2).divScalar 3
  let deltas := (middle.sub vertices.1, middle.sub vertices.2.1,
    middle.sub vertices.2.2)
  ¬ (segments.1.cross deltas.1).z < 0 ∧
    ¬ (segments.2.1.cross deltas.2.1).z < 0 ∧
    ¬ (segments.2.2.cross deltas.2.2).z < 0

instance (vertices segments : Triplet) :
    Decidable (Triangle.check vertices segments) := by
  unfold Triangle.check
  exact instDecidableAnd

/-- `raster.rs` `get_max_min` (the helper nested in `Triangle::get_rect`),
with its exact comparison structure. -/
def get_max_min (c0 c1 c2 : ℚ) : ℚ × ℚ :=
  if c0 > c1 ∧ c0 > c2 then
    if c1 > c2 then (c0, c2) else (c0, c1)
  else if c1 > c0 ∧ c1 > c2 then
    if c0 > c2 then (c1, c2) else (c1, c0)
  else
    if c0 > c1 then (c2, c1) else (c2, c0)

/-- `raster.rs` `Triangle::get_rect`. -/
def Triangle.get_rect (vertices : Triplet) : Option Rect2 :=
  let mmx := get_max_min vertices.1.x vertices.2.1.x vertices.2.2.x
  let mmy := get_max_min vertices.1.y vertices.2.1.y vertices.2.2.y
  Rect2.new ⟨mmx.2, mmy.2⟩ ⟨mmx.1, mmy.1⟩

/-- `raster.rs` `Triangle::new`: keep the clip-space `w`s, perspective-divide
the vertices (`Vector4 → Vector3`), build segments and bounding rectangle,
and accept only when `check` passes. -/
def Triangle.new (vertices4 : Triplet4) : Option Triangle :=
  let ws : VecM.Vector3 := ⟨vertices4.1.w, vertices4.2.1.w, vertices4.2.2.w⟩
  let vertices : Triplet :=
    (VecM.Vector3.ofVector4 vertices4.1, VecM.Vector3.ofVector4 vertices4.2.1,
      VecM.Vector3.ofVector4 vertices4.2.2)
  let segments := Triangle.segmentsOf vertices
  (Triangle.get_rect vertices).bind fun rect =>
    if Triangle.check vertices segments then
      some ⟨vertices, segments, ws, rect⟩
    else none

/-- `raster.rs` `LinearInterpolator`. -/
structure LinearInterpolator where
  start : ℚ
  dx : ℚ
  dy : ℚ
deriving DecidableEq, Repr

/-- `raster.rs` `LinearInterpolator::calc`. -/
def LinearInterpolator.calc (li : LinearInterpolator) (dx dy : ℚ) : ℚ :=
  li.start + li.dx * dx + li.dy * dy

/-- `raster.rs` `TriangleIter::new`: the three interpolators, seeded with the
edge crosses at the rectangle's start corner (a `Vector2` difference lifted
back to `Vector3` with `z = 0`). -/
def TriangleIter.crosses (t : Triangle) : LinearInterpolator ×
    LinearInterpolator × LinearInterpolator :=
  let start := t.rect.start
  let vs :=
    (start.sub (VecM.Vector2.ofVector3 t.vertices.1),
     start.sub (VecM.Vector2.ofVector3 t.vertices.2.1),
     start.sub (VecM.Vector2.ofVector3 t.vertices.2.2))
  (⟨(t.segments.1.cross (VecM.Vector3.ofVector2 vs.1)).z,
      -t.segments.1.y, t.segments.1.x⟩,
   ⟨(t.segments.2.1.cross (VecM.Vector3.ofVector2 vs.2.1)).z,
      -t.segments.2.1.y, t.segments.2.1.x⟩,
   ⟨(t.segments.2.2.cross (VecM.Vector3.ofVector2 vs.2.2)).z,
      -t.segments.2.2.y, t.segments.2.2.x⟩)

/-- `raster.rs` `TriangleIter`'s `zs` field: the three vertex depths. -/
def TriangleIter.zs (t : Triangle) : VecM.Vector3 :=
  ⟨t.vertices.1.z, t.vertices.2.1.z, t.vertices.2.2.z⟩

/-- `raster.rs` `Fragment` (float scan converter). -/
structure FragmentF where
  position : VecM.Vector3
  coefs : VecM.Vector3
deriving DecidableEq, Repr

/-- The per-pixel body of `raster.rs` `Iterator for TriangleIter`: evaluate
the three interpolators at the offset from the rectangle start
(`cof2` from `crosses[0]`, `cof0` from `crosses[1]`, `cof1` from
`crosses[2]`), yield a fragment iff all three are strictly positive,
perspective-divide by the stored `ws`, renormalize to sum one, and
interpolate the depth. -/
def TriangleIter.fragAt (t : Triangle) (position : VecM.Vector2 ℤ) :
    Option FragmentF :=
  let posF : VecM.Vector2 ℚ := ⟨(position.x : ℚ), (position.y : ℚ)⟩
  let delta := posF.sub t.rect.start
  let cr := TriangleIter.crosses t
  let cof2 := cr.1.calc delta.x delta.y
  let cof0 := cr.2.1.calc delta.x delta.y
  let cof1 := cr.2.2.calc delta.x delta.y
  if cof0 > 0 ∧ cof1 > 0 ∧ cof2 > 0 then
    let coefs : VecM.Vector3 := ⟨cof0 / t.ws.x, cof1 / t.ws.y, cof2 / t.ws.z⟩
    let sum := coefs.x + coefs.y + coefs.z
    let coefs := coefs.divScalar sum
    let z := coefs.dot (TriangleIter.zs t)
    some ⟨⟨posF.x, posF.y, z⟩, coefs⟩
  else none

/-- The pixels the scan converter visits: the rectangle iterator built from
the triangle's bounding rectangle. -/
def Triangle.pixels (t : Triangle) : List (VecM.Vector2 ℤ) :=
  Rect2Iter.toList (Rect2Iter.new t.rect)

/-- All fragments `TriangleIter` yields: `find_map` of the per-pixel body
over the rectangle pixels, i.e. `filterMap`. -/
def Triangle.fragments (t : Triangle) : List FragmentF :=
  t.pixels.filterMap (TriangleIter.fragAt t)

/-- The three edge-function values at an integer pixel: for each edge `i`,
`cross(segment_i, p - v_i).z`, with the pixel and vertex compared in 2D
(`z = 0`), exactly the quantity the spec's inside test refers to
(`cof2` is edge 0's value, `cof0` edge 1's, `cof1` edge 2's; the
interpolators of `TriangleIter` compute these incrementally). -/
def Triangle.edgeValuesAt (t : Triangle) (p : VecM.Vector2 ℤ) : ℚ × ℚ × ℚ :=
  let posF : VecM.Vector2 ℚ := ⟨(p.x : ℚ), (p.y : ℚ)⟩
  ((t.segments.1.cross (VecM.Vector3.ofVector2
      (posF.sub (VecM.Vector2.ofVector3 t.vertices.1)))).z,
   (t.segments.2.1.cross (VecM.Vector3.ofVector2
      (posF.sub (VecM.Vector2.ofVector3 t.vertices.2.1)))).z,
   (t.segments.2.2.cross (VecM.Vector3.ofVector2
      (posF.sub (VecM.Vector2.ofVector3 t.vertices.2.2)))).z)

/-! ## `src/main.rs`: `RenderContext` (depth-tested compositor)

`framebuffer` holds `u32` pixels, `depthbuffer` holds `u8` depths; both are
modelled as lists of `ℕ`. -/

/-- `main.rs` `RenderContext`. -/
structure RenderContext where
  width : ℕ
  height : ℕ
  framebuffer : List ℕ
  depthbuffer : List ℕ
deriving DecidableEq, Repr

/-- `main.rs` `RenderContext::draw`: bounds check, depth fetch, depth test
(`z > stored` discards), then write depth and color.  Returns the `bool`
result together with the updated context. -/
def RenderContext.draw (ctx : RenderContext) (x y : ℕ) (z : ℕ)
    (color : ℕ) : Bool × RenderContext :=
  if x ≥ ctx.width ∨ y ≥ ctx.height then (false, ctx)
  else
    match ctx.depthbuffer.get? (y * ctx.width + x) with
    | none => (false, ctx)
    | some depth =>
      if z > depth then (false, ctx)
      else
        match ctx.framebuffer.get? (y * ctx.width + x) with
        | none => (false, ctx)
        | some _ =>
          (true,
            { ctx with
              depthbuffer := ctx.depthbuffer.set (y * ctx.width + x) z,
              framebuffer := ctx.framebuffer.set (y * ctx.width + x) color })

end SoftwareRender

open SoftwareRender

/-- C1 counterexample: the projection matrix with aspect=1, fov=π/2
(half-angle tangent 1), near=1, far=100, applied to (1,1,−2,1), yields
z/w = 50/33 ≈ 1.515, which is not −0.5 nor within any reasonable floating
tolerance (distance 1/10) of it. -/
theorem c1_projection_ratio_not_neg_half :
    c1Projected.z / c1Projected.w ≠ -(1/2) ∧
    ¬ |c1Projected.z / c1Projected.w - (-(1/2))|
        < 1/10 := by
  have h : c1Projected.z / c1Projected.w = 50/33 := by
    norm_num [c1Projected, MatM.Matrix4.projection, MatM.Matrix4.mulVec,
      MatM.Vector4.dot]
  rw [h]
  constructor
  · norm_num
  · rw [show (50/33 : ℚ) - (-(1/2)) = 133/66 by norm_num,
      abs_of_nonneg (by norm_num : (0:ℚ) ≤ 133/66)]
    norm_num

/-- C1 (amended): the perspective projection matrix built with aspect=1,
fov=π/2, near=1, far=100 (`Matrix4::projection`), applied to the homogeneous
point (1,1,−2,1), yields a result whose z component divided by its w
component equals 50/33 ≈ 1.515 (the code maps the point z=−2,w=1 outside the
near/far frustum of this convention; the spec's −0.5 is not what the code
computes). -/
theorem c1_projection_ratio_value :
    c1Projected.z / c1Projected.w = 50/33 := by
  norm_num [c1Projected, MatM.Matrix4.projection, MatM.Matrix4.mulVec,
    MatM.Vector4.dot]

/-- C7 counterexample: the `matrices.rs` `From<Vector4> for Vector3`
conversion applied to (2,2,2,2) keeps the components unchanged instead of
dividing by w = 2: it returns (2,2,2), not (1,1,1). -/
theorem c7_matrices_conversion_does_not_divide :
    MatM.Vector3.ofVector4 ⟨2, 2, 2, 2⟩ = ⟨2, 2, 2⟩ ∧
    MatM.Vector3.ofVector4 ⟨2, 2, 2, 2⟩ ≠ ⟨2/2, 2/2, 2/2⟩ := by
  refine ⟨rfl, ?_⟩
  simp only [MatM.Vector3.ofVector4, ne_eq, MatM.Vector3.mk.injEq]
  norm_num

/-- C7 (amended): the generic `vectors.rs` Vector4→Vector3 conversion
returns (x/w, y/w, z/w) when w ≠ 0 and (x, y, z) unchanged when w = 0, never
dividing by zero; the separate `matrices.rs` Vector4→Vector3 conversion
instead always returns (x, y, z) without dividing. -/
theorem c7_homogeneous_conversion (v : VecM.Vector4) :
    (v.w ≠ 0 → VecM.Vector3.ofVector4 v = ⟨v.x / v.w, v.y / v.w, v.z / v.w⟩) ∧
    (v.w = 0 → VecM.Vector3.ofVector4 v = ⟨v.x, v.y, v.z⟩) ∧
    MatM.Vector3.ofVector4 ⟨v.x, v.y, v.z, v.w⟩ = ⟨v.x, v.y, v.z⟩ := by
  refine ⟨fun h => ?_, fun h => ?_, rfl⟩
  · simp [VecM.Vector3.ofVector4, h]
  · simp [VecM.Vector3.ofVector4, h]

/-- C7 witness: the generic conversion divides (2,4,6,2) by w = 2. -/
theorem c7_homogeneous_conversion_witness :
    VecM.Vector3.ofVector4 ⟨2, 4, 6, 2⟩ = ⟨2/2, 4/2, 6/2⟩ :=
  (c7_homogeneous_conversion ⟨2, 4, 6, 2⟩).1 (by norm_num)

/-- C2 counterexample: on a 100×100 buffer, reading at (100, 0) — whose x
is at the width, hence out of range — silently succeeds (returns the stored
value) because the linear index 100 + 0·100 = 100 is within the backing
storage; no panic occurs.  A second out-of-range read at (101, 42949672)
also succeeds silently in release builds: the `i32` product 42949672·100
wraps to −96, so the wrapped linear index is 5 (debug builds panic on that
overflow — either way the claimed "fatal path at any x ≥ w or y ≥ h, never
a silent read" is violated by the first, overflow-free, coordinate). -/
theorem c2_out_of_range_read_is_silent :
    (Buffer.new ⟨100, 100⟩ (0 : ℕ)).bind
        (fun b => b.get_pixel ⟨100, 0⟩) = some 0 ∧
    (Buffer.new ⟨100, 100⟩ (0 : ℕ)).bind
        (fun b => b.get_pixel ⟨101, 42949672⟩) = some 0 ∧
    ¬ (100 : ℤ) < 100 := by
  exact ⟨rfl, rfl, by norm_num⟩

/-- C2 (amended): a `get_pixel`/`set_pixel` access is fatal (panics) exactly
when the 32-bit-wrapped linear index x + y·width — the `i32` computation of
the source, with release-build wrapping; debug builds already panic on the
overflow itself — falls outside [0, width·height); any coordinate pair
whose wrapped linear index lands inside the storage, out of range or not,
is silently read or written, not trapped. -/
theorem c2_buffer_access_fatal_iff {α : Type} (b : Buffer α)
    (p : VecM.Vector2 ℤ) (v : α)
    (hw : 0 < b.size.x) (hh : 0 < b.size.y)
    (hwi : b.size.x < 2 ^ 31) (hhi : b.size.y < 2 ^ 31)
    (hlen : b.data.length = (b.size.x * b.size.y).toNat) :
    (b.get_pixel p = none ↔
      (wrapI32 (p.x + wrapI32 (p.y * b.size.x)) < 0 ∨
        b.size.x * b.size.y ≤ wrapI32 (p.x + wrapI32 (p.y * b.size.x)))) ∧
    (b.set_pixel p v = none ↔
      (wrapI32 (p.x + wrapI32 (p.y * b.size.x)) < 0 ∨
        b.size.x * b.size.y ≤ wrapI32 (p.x + wrapI32 (p.y * b.size.x)))) := by
  have hwh : b.size.x * b.size.y < 2 ^ 62 := by nlinarith
  have hb : -2 ^ 31 ≤ wrapI32 (p.x + wrapI32 (p.y * b.size.x)) ∧
      wrapI32 (p.x + wrapI32 (p.y * b.size.x)) < 2 ^ 31 := by
    unfold wrapI32
    omega
  have key : (usizeOfI32 (wrapI32 (p.x + wrapI32 (p.y * b.size.x))) <
        b.data.length) ↔
      ¬ (wrapI32 (p.x + wrapI32 (p.y * b.size.x)) < 0 ∨
        b.size.x * b.size.y ≤ wrapI32 (p.x + wrapI32 (p.y * b.size.x))) := by
    rw [usizeOfI32, hlen]
    generalize b.size.x * b.size.y = M at hwh ⊢
    generalize wrapI32 (p.x + wrapI32 (p.y * b.size.x)) = a at hb ⊢
    omega
  constructor
  · rw [Buffer.get_pixel, List.get?_eq_none, Buffer.index, ← not_lt,
      ← Buffer.index, show b.index p =
        usizeOfI32 (wrapI32 (p.x + wrapI32 (p.y * b.size.x))) from rfl,
      key, not_not]
  · rw [Buffer.set_pixel, show b.index p =
      usizeOfI32 (wrapI32 (p.x + wrapI32 (p.y * b.size.x))) from rfl]
    constructor
    · intro h
      by_contra hc
      rw [if_pos (key.2 hc)] at h
      exact Option.noConfusion h
    · intro h
      rw [if_neg]
      intro hlt
      exact (key.1 hlt) h

/-- C2 witness: on a 2×2 buffer, reading or writing at (2, 2) — wrapped
linear index 6, outside the 4-cell storage — is fatal, matching the
characterization. -/
theorem c2_buffer_access_fatal_iff_witness :
    ((Buffer.mk [0, 0, 0, 0] ⟨2, 2⟩ : Buffer ℕ).get_pixel ⟨2, 2⟩ = none ↔
      (wrapI32 ((2 : ℤ) + wrapI32 (2 * 2)) < 0 ∨
        (2 : ℤ) * 2 ≤ wrapI32 (2 + wrapI32 (2 * 2)))) ∧
    ((Buffer.mk [0, 0, 0, 0] ⟨2, 2⟩ : Buffer ℕ).set_pixel ⟨2, 2⟩ 7 = none ↔
      (wrapI32 ((2 : ℤ) + wrapI32 (2 * 2)) < 0 ∨
        (2 : ℤ) * 2 ≤ wrapI32 (2 + wrapI32 (2 * 2)))) :=
  c2_buffer_access_fatal_iff (Buffer.mk [0, 0, 0, 0] ⟨2, 2⟩) ⟨2, 2⟩ 7
    (by norm_num) (by norm_num) (by norm_num) (by norm_num) (by rfl)

/-- C8: for a buffer of positive width and height whose storage has
width·height cells (any buffer the program can construct: `Buffer::new`'s
`i32` size product keeps width·height below 2^31, so the index arithmetic
cannot overflow), and an in-range coordinate p, the access index is the
linear index x + y·width, and `set_pixel(p, v)` followed by `get_pixel(p)`
succeeds and returns exactly v. -/
theorem c8_buffer_roundtrip {α : Type} (b : Buffer α)
    (p : VecM.Vector2 ℤ) (v : α)
    (hw : 0 < b.size.x) (hh : 0 < b.size.y)
    (hwi : b.size.x < 2 ^ 31) (hhi : b.size.y < 2 ^ 31)
    (hwh : b.size.x * b.size.y < 2 ^ 31)
    (hlen : b.data.length = (b.size.x * b.size.y).toNat)
    (hx1 : 0 ≤ p.x) (hx2 : p.x < b.size.x)
    (hy1 : 0 ≤ p.y) (hy2 : p.y < b.size.y) :
    b.index p = (p.x + p.y * b.size.x).toNat ∧
    ∃ b', b.set_pixel p v = some b' ∧ b'.get_pixel p = some v := by
  have hyb : p.y * b.size.x ≤ (b.size.y - 1) * b.size.x := by nlinarith
  have hyw0 : 0 ≤ p.y * b.size.x := mul_nonneg hy1 hw.le
  have hyw1 : p.y * b.size.x < 2 ^ 31 := by nlinarith
  have hidx0 : 0 ≤ p.x + p.y * b.size.x := by nlinarith
  have hidx1 : p.x + p.y * b.size.x < b.size.x * b.size.y := by nlinarith
  have hidx2 : p.x + p.y * b.size.x < 2 ^ 31 := by nlinarith
  have hwrap1 : wrapI32 (p.y * b.size.x) = p.y * b.size.x := by
    generalize p.y * b.size.x = Y at hyw0 hyw1 ⊢
    unfold wrapI32
    omega
  have hwrap2 : wrapI32 (p.x + p.y * b.size.x) = p.x + p.y * b.size.x := by
    generalize p.x + p.y * b.size.x = S at hidx0 hidx2 ⊢
    unfold wrapI32
    omega
  have hindex : b.index p = (p.x + p.y * b.size.x).toNat := by
    rw [Buffer.index, hwrap1, hwrap2, usizeOfI32]
    generalize p.x + p.y * b.size.x = S at hidx0 hidx2 ⊢
    omega
  have hlt : b.index p < b.data.length := by
    rw [hindex, hlen]
    generalize p.x + p.y * b.size.x = S at hidx0 hidx1 ⊢
    generalize b.size.x * b.size.y = M at hidx1 ⊢
    omega
  refine ⟨hindex, ⟨b.data.set (b.index p) v, b.size⟩, ?_, ?_⟩
  · rw [Buffer.set_pixel, if_pos hlt]
  · rw [Buffer.get_pixel]
    have hidx' : (Buffer.mk (b.data.set (b.index p) v) b.size).index p
        = b.index p := rfl
    rw [hidx']
    exact List.get?_set_eq_of_lt v hlt

/-- C8 witness: on a 3×2 buffer, writing 7 at (2, 1) (linear index 5) and
reading it back returns 7. -/
theorem c8_buffer_roundtrip_witness :
    (Buffer.mk [0, 0, 0, 0, 0, 0] ⟨3, 2⟩ : Buffer ℕ).index ⟨2, 1⟩
        = ((2 : ℤ) + 1 * 3).toNat ∧
    ∃ b', (Buffer.mk [0, 0, 0, 0, 0, 0] ⟨3, 2⟩ : Buffer ℕ).set_pixel
          ⟨2, 1⟩ 7 = some b' ∧
        b'.get_pixel ⟨2, 1⟩ = some 7 :=
  c8_buffer_roundtrip (Buffer.mk [0, 0, 0, 0, 0, 0] ⟨3, 2⟩) ⟨2, 1⟩ 7
    (by norm_num) (by norm_num) (by norm_num) (by norm_num) (by norm_num)
    (by rfl) (by norm_num) (by norm_num) (by norm_num) (by norm_num)

/-! ## Shared lemmas about the iterators -/

namespace SoftwareRender

/-- The pixel `RectI2Iter` computes at a given index. -/
def RectI2Iter.pixelAt (r : RectI2) (sz : VecI2) (i : ℤ) : VecI2 :=
  ⟨r.start.x + Int.tmod i sz.x, r.start.y + Int.tdiv i sz.x⟩

/-- One `next` step when the iterator is exhausted. -/
theorem RectI2Iter.next_none (r : RectI2) (sz : VecI2) (i : ℤ)
    (h : sz.x * sz.y < i) : RectI2Iter.next ⟨r, sz, i⟩ = none := by
  unfold RectI2Iter.next
  dsimp only
  rw [if_pos (by omega)]

/-- One `next` step while the iterator is still running. -/
theorem RectI2Iter.next_some (r : RectI2) (sz : VecI2) (i : ℤ)
    (h : i ≤ sz.x * sz.y) :
    RectI2Iter.next ⟨r, sz, i⟩ =
      some (RectI2Iter.pixelAt r sz i, ⟨r, sz, i + 1⟩) := by
  unfold RectI2Iter.next
  dsimp only
  rw [if_neg (by omega)]
  rfl

/-- Closed form of `RectI2Iter.run`: from index `i` with enough fuel the
iterator yields the pixels of indices `i, i+1, …, size.x*size.y`. -/
theorem RectI2Iter.run_eq (r : RectI2) (sz : VecI2) :
    ∀ (m : ℕ) (i : ℤ) (fuel : ℕ), (sz.x * sz.y + 1 - i).toNat = m →
      m < fuel →
      RectI2Iter.run fuel ⟨r, sz, i⟩ =
        (List.range m).map
          (fun k : ℕ => RectI2Iter.pixelAt r sz (i + (k : ℤ))) := by
  intro m
  induction m with
  | zero =>
    intro i fuel hm hf
    obtain ⟨f, rfl⟩ : ∃ f, fuel = f + 1 := ⟨fuel - 1, by omega⟩
    rw [RectI2Iter.run, RectI2Iter.next_none r sz i (by omega)]
    simp
  | succ m ih =>
    intro i fuel hm hf
    obtain ⟨f, rfl⟩ : ∃ f, fuel = f + 1 := ⟨fuel - 1, by omega⟩
    rw [RectI2Iter.run, RectI2Iter.next_some r sz i (by omega)]
    have ihh := ih (i + 1) f (by omega) (by omega)
    dsimp only
    rw [ihh, List.range_succ_eq_map, List.map_cons, List.map_map]
    congr 1
    · simp [RectI2Iter.pixelAt]
    · apply List.map_congr_left
      intro k _
      simp only [Function.comp_apply]
      have : i + (k + 1 : ℕ) = i + 1 + (k : ℕ) := by push_cast; ring
      rw [this]

/-- `RectI2Iter.toList` of a fresh iterator: pixels of indices
`0 … size.x * size.y` inclusive (one index beyond the half-open area). -/
theorem RectI2Iter.toList_new (r : RectI2) :
    RectI2Iter.toList (RectI2Iter.new r) =
      (List.range ((r.size.x * r.size.y + 1).toNat)).map
        (fun k : ℕ => RectI2Iter.pixelAt r r.size (k : ℤ)) := by
  rw [RectI2Iter.toList, RectI2Iter.new]
  have h := RectI2Iter.run_eq r r.size ((r.size.x * r.size.y + 1).toNat) 0
    ((r.size.x * r.size.y + 1 - 0).toNat + 1) (by omega) (by omega)
  simp only at h
  rw [show ((RectI2Iter.mk r r.size 0).size.x *
      (RectI2Iter.mk r r.size 0).size.y + 1 -
      (RectI2Iter.mk r r.size 0).index).toNat = (r.size.x * r.size.y + 1 - 0).toNat from rfl]
  rw [h]
  apply List.map_congr_left
  intro k _
  rw [zero_add]

/-- Every pixel a fresh `RectI2Iter` yields lies within
`[start.x, start.x + size.x) × [start.y, start.y + size.y]` (note the extra
row: the final index `size.x * size.y` produces `(start.x, start.y +
size.y)`). -/
theorem RectI2Iter.mem_toList_new (r : RectI2) (hx : 0 < r.size.x)
    (hy : 0 < r.size.y) (v : VecI2)
    (hv : v ∈ RectI2Iter.toList (RectI2Iter.new r)) :
    r.start.x ≤ v.x ∧ v.x < r.start.x + r.size.x ∧
    r.start.y ≤ v.y ∧ v.y ≤ r.start.y + r.size.y := by
  rw [RectI2Iter.toList_new] at hv
  obtain ⟨k, hk, rfl⟩ := List.mem_map.1 hv
  rw [List.mem_range] at hk
  have hk0 : (0 : ℤ) ≤ (k : ℤ) := Int.ofNat_nonneg k
  have hkn : (k : ℤ) ≤ r.size.x * r.size.y := by omega
  have hmod : Int.tmod (k : ℤ) r.size.x = (k : ℤ) % r.size.x :=
    Int.tmod_eq_emod hk0 hx.le
  have hdiv : Int.tdiv (k : ℤ) r.size.x = (k : ℤ) / r.size.x :=
    Int.tdiv_eq_ediv hk0 hx.le
  refine ⟨?_, ?_, ?_, ?_⟩
  · have := Int.emod_nonneg (k : ℤ) (by omega : r.size.x ≠ 0)
    simp only [RectI2Iter.pixelAt, hmod]
    omega
  · have := Int.emod_lt_of_pos (k : ℤ) hx
    simp only [RectI2Iter.pixelAt, hmod]
    omega
  · have := Int.ediv_nonneg hk0 hx.le
    simp only [RectI2Iter.pixelAt, hdiv]
    omega
  · have h1 : (k : ℤ) / r.size.x ≤ (r.size.x * r.size.y) / r.size.x :=
      Int.ediv_le_ediv hx hkn
    rw [Int.mul_ediv_cancel_left _ (by omega : r.size.x ≠ 0)] at h1
    simp only [RectI2Iter.pixelAt, hdiv]
    omega

end SoftwareRender

/-- C10: fragments of a cropped rasterizer stay inside the crop region.
For any accepted triangle and crop size (cw, ch) with cw, ch ≥ 0, every
fragment produced by `Rasterizer::new_with_cropping(triangle, (cw, ch))`
has 0 ≤ x ≤ cw and 0 ≤ y ≤ ch, regardless of the triangle's own bounding
rectangle. -/
theorem c10_cropped_fragments_within_bounds
    (a b c : VecI2) (t : RasterTriangle) (cw ch : ℤ) (r : Rasterizer)
    (ht : RasterTriangle.new a b c = some t)
    (hcw : 0 ≤ cw) (hch : 0 ≤ ch)
    (hr : Rasterizer.new_with_cropping t ⟨cw, ch⟩ = some r)
    (f : Fragment) (hf : f ∈ r.fragments) :
    0 ≤ f.position.x ∧ f.position.x ≤ cw ∧
    0 ≤ f.position.y ∧ f.position.y ≤ ch := by
  clear ht
  rw [Rasterizer.new_with_cropping] at hr
  obtain ⟨rect, _, hr2⟩ := Option.bind_eq_some.1 hr
  simp only at hr2
  obtain ⟨rect2, hrect2, hr3⟩ := Option.bind_eq_some.1 hr2
  have hr4 := (Option.some.inj hr3).symm
  rw [RectI2.new] at hrect2
  split_ifs at hrect2 with hpos
  · have hrect2' : rect2 = RectI2.mk
        ⟨max rect.start.x 0, max rect.start.y 0⟩
        ⟨min rect.endp.x cw, min rect.endp.y ch⟩ :=
      (Option.some.inj hrect2).symm
    subst hrect2'
    rw [Rasterizer.fragments] at hf
    obtain ⟨p, hp, hfp⟩ := List.mem_filterMap.1 hf
    have hposf : f.position = p := by
      simp only [Rasterizer.fragAt] at hfp
      split_ifs at hfp
      rw [← Option.some.inj hfp]
    have hiter : r.iter = RectI2Iter.new (RectI2.mk
        ⟨max rect.start.x 0, max rect.start.y 0⟩
        ⟨min rect.endp.x cw, min rect.endp.y ch⟩) := by rw [hr4]
    rw [hiter] at hp
    simp only [VecI2.sub, VecI2.add, VecI2.neg] at hpos
    have hx : 0 < (RectI2.mk
        ⟨max rect.start.x 0, max rect.start.y 0⟩
        ⟨min rect.endp.x cw, min rect.endp.y ch⟩).size.x := by
      simp only [RectI2.size, VecI2.sub, VecI2.add, VecI2.neg]
      omega
    have hy : 0 < (RectI2.mk
        ⟨max rect.start.x 0, max rect.start.y 0⟩
        ⟨min rect.endp.x cw, min rect.endp.y ch⟩).size.y := by
      simp only [RectI2.size, VecI2.sub, VecI2.add, VecI2.neg]
      omega
    have hb := RectI2Iter.mem_toList_new _ hx hy p hp
    simp only [RectI2.size, VecI2.sub, VecI2.add, VecI2.neg] at hb
    rw [hposf]
    omega

/-- The counter-clockwise integer triangle (0,0), (4,0), (2,3) with its
edge segments, as `RasterTriangle::new` constructs it. -/
def c10tri : RasterTriangle :=
  ⟨(⟨0, 0⟩, ⟨4, 0⟩, ⟨2, 3⟩), (⟨4, 0⟩, ⟨-2, 3⟩, ⟨-2, -3⟩)⟩

/-- The rasterizer `new_with_cropping(c10tri, (2,2))` produces: bounding
rectangle (0,0)–(4,3) cropped to (0,0)–(2,2). -/
def c10r : Rasterizer :=
  ⟨⟨⟨⟨0, 0⟩, ⟨2, 2⟩⟩, ⟨2, 2⟩, 0⟩, 12, (0, 12, 0),
    (⟨0, 4⟩, ⟨-3, -2⟩, ⟨3, -2⟩)⟩

/-- The first fragment that rasterizer yields (pixel (0,0)). -/
def c10frag : Fragment :=
  ⟨⟨0, 0⟩, (((12 : ℤ) : ℚ) / 12, ((0 : ℤ) : ℚ) / 12, ((0 : ℤ) : ℚ) / 12)⟩

/-- `RasterTriangle::new` accepts the triple of `c10tri`. -/
theorem c10tri_new : RasterTriangle.new ⟨0, 0⟩ ⟨4, 0⟩ ⟨2, 3⟩ = some c10tri := by
  have hc : RasterTriangle.check_vertices (⟨0, 0⟩, ⟨4, 0⟩, ⟨2, 3⟩)
      (RasterTriangle.segments_from_points (⟨0, 0⟩, ⟨4, 0⟩, ⟨2, 3⟩)) := by
    simp only [RasterTriangle.check_vertices,
      RasterTriangle.segments_from_points, VecI2.add, VecI2.sub, VecI2.neg,
      VecI2.scale, VecI2.cross, ratTrunc]
    norm_num
  simp only [RasterTriangle.new]
  rw [if_pos hc]
  rfl

/-- `new_with_cropping(c10tri, (2,2))` builds exactly `c10r`. -/
theorem c10r_new : Rasterizer.new_with_cropping c10tri ⟨2, 2⟩ = some c10r := by
  have h1 : Rasterizer.get_area c10tri = some ⟨⟨0, 0⟩, ⟨4, 3⟩⟩ := rfl
  have h2 : Rasterizer.calculate_starts c10tri ⟨0, 0⟩ = (0, 12, 0) := by
    simp only [Rasterizer.calculate_starts, c10tri, VecI2.sub, VecI2.add,
      VecI2.neg, VecI2.cross, ratTrunc]
    norm_num
  have h3 : |VecI2.cross c10tri.segments.1 c10tri.segments.2.1| = (12 : ℚ) := by
    simp only [c10tri, VecI2.cross]
    norm_num
  simp only [Rasterizer.new_with_cropping, h1, Option.some_bind]
  rw [show ((0:ℤ) ⊔ 0) = 0 by norm_num, show ((4:ℤ) ⊓ 2) = 2 by norm_num,
    show ((3:ℤ) ⊓ 2) = 2 by norm_num,
    show RectI2.new ⟨0, 0⟩ ⟨2, 2⟩ = some ⟨⟨0, 0⟩, ⟨2, 2⟩⟩ from rfl]
  simp only [Option.some_bind, Option.some.injEq, c10r, Rasterizer.mk.injEq]
  exact ⟨rfl, h3, h2, rfl⟩

/-- C10 witness: the cropped rasterizer for `c10tri` with crop (2,2) yields
the fragment at pixel (0,0), which lies within the crop bounds. -/
theorem c10_cropped_fragments_within_bounds_witness :
    0 ≤ c10frag.position.x ∧ c10frag.position.x ≤ 2 ∧
    0 ≤ c10frag.position.y ∧ c10frag.position.y ≤ 2 :=
  c10_cropped_fragments_within_bounds ⟨0, 0⟩ ⟨4, 0⟩ ⟨2, 3⟩ c10tri 2 2 c10r
    c10tri_new (by norm_num) (by norm_num) c10r_new c10frag
    (List.mem_of_mem_head? (by rw [Option.mem_def]; rfl))

/-- C6 counterexample: with stored depth 5 at pixel (0,0), a fragment of
depth exactly 5 (an "equal" surface) is NOT discarded: `draw` returns true
and overwrites the framebuffer (color 7) — the claim's "discard when the
stored value represents an equal-or-nearer surface" fails at equality. -/
theorem c6_equal_depth_overwrites :
    RenderContext.draw ⟨1, 1, [0], [5]⟩ 0 0 5 7 = (true, ⟨1, 1, [7], [5]⟩) ∧
    (⟨1, 1, [7], [5]⟩ : RenderContext) ≠ ⟨1, 1, [0], [5]⟩ := by
  exact ⟨rfl, by decide⟩

/-- C6 (amended): for a fragment that passes the bounds check, the
compositor compares with one fixed direction — smaller depth wins — but
discards only when the stored value is STRICTLY nearer (stored < z); when
the fragment's depth equals or beats the stored value (z ≤ stored) it
overwrites the stored depth and writes the color. -/
theorem c6_depth_test (ctx : RenderContext) (x y z color d : ℕ)
    (hx : x < ctx.width) (hy : y < ctx.height)
    (hd : ctx.depthbuffer.get? (y * ctx.width + x) = some d)
    (hfb : y * ctx.width + x < ctx.framebuffer.length) :
    (d < z → ctx.draw x y z color = (false, ctx)) ∧
    (z ≤ d → ctx.draw x y z color =
      (true,
        { ctx with
          depthbuffer := ctx.depthbuffer.set (y * ctx.width + x) z,
          framebuffer :=
            ctx.framebuffer.set (y * ctx.width + x) color })) := by
  have hnb : ¬ (x ≥ ctx.width ∨ y ≥ ctx.height) := by omega
  have hfb' : ctx.framebuffer.get? (y * ctx.width + x) =
      some (ctx.framebuffer.get ⟨y * ctx.width + x, hfb⟩) :=
    List.get?_eq_get hfb
  constructor
  · intro hlt
    rw [RenderContext.draw, if_neg hnb, hd]
    dsimp only
    rw [if_pos (by omega : z > d)]
  · intro hle
    rw [RenderContext.draw, if_neg hnb, hd]
    dsimp only
    rw [if_neg (by omega : ¬ z > d), hfb']

/-- C6 witness: with stored depth 5, a fragment of depth 3 at (0,0) is
written: depth buffer becomes 3 and the color 7 is stored. -/
theorem c6_depth_test_witness :
    (5 < 3 → RenderContext.draw ⟨1, 1, [0], [5]⟩ 0 0 3 7 =
      (false, ⟨1, 1, [0], [5]⟩)) ∧
    (3 ≤ 5 → RenderContext.draw ⟨1, 1, [0], [5]⟩ 0 0 3 7 =
      (true,
        { (⟨1, 1, [0], [5]⟩ : RenderContext) with
          depthbuffer := List.set [5] (0 * 1 + 0) 3,
          framebuffer := List.set [0] (0 * 1 + 0) 7 })) :=
  c6_depth_test ⟨1, 1, [0], [5]⟩ 0 0 3 7 5 (by decide) (by decide) rfl
    (by decide)

/-- The three cross products of the claim's acceptance formula for a float
vertex triple: `cross(edge_i, centroid - v_i).z` with the exact centroid
`(v0 + v1 + v2) / 3` and edges `v1-v0, v2-v1, v0-v2` (stated from the
claim's words, to be compared against `raster.rs` `Triangle::check`). -/
def windingCrosses (vertices : Triplet) : ℚ × ℚ × ℚ :=
  let middle := ((vertices.1.add vertices.2.1).add vertices.2.2).divScalar 3
  (((vertices.2.1.sub vertices.1).cross (middle.sub vertices.1)).z,
   ((vertices.2.2.sub vertices.2.1).cross (middle.sub vertices.2.1)).z,
   ((vertices.1.sub vertices.2.2).cross (middle.sub vertices.2.2)).z)

/-- C3 counterexample: the degenerate collinear triple (0,0), (1,0), (2,0)
has centroid (1,0) and all three cross products `cross(edge_i, centroid -
v_i)` equal to 0, hence ≥ 0 — the claim's acceptance condition holds — yet
BOTH constructors reject it: `RasterTriangle::new` because it requires
strictly positive crosses, and `raster.rs` `Triangle::new` because the
bounding rectangle's y-extent is 0 (`Rect2::new` fails), even though its
non-strict cross test would pass. -/
theorem c3_collinear_rejected_despite_nonneg_crosses :
    RasterTriangle.new ⟨0, 0⟩ ⟨1, 0⟩ ⟨2, 0⟩ = none ∧
    ((VecI2.add (VecI2.add ⟨0, 0⟩ ⟨1, 0⟩) ⟨2, 0⟩).scale (1/3)) = ⟨1, 0⟩ ∧
    0 ≤ VecI2.cross (VecI2.sub ⟨1, 0⟩ ⟨0, 0⟩) (VecI2.sub ⟨1, 0⟩ ⟨0, 0⟩) ∧
    0 ≤ VecI2.cross (VecI2.sub ⟨2, 0⟩ ⟨1, 0⟩) (VecI2.sub ⟨1, 0⟩ ⟨1, 0⟩) ∧
    0 ≤ VecI2.cross (VecI2.sub ⟨0, 0⟩ ⟨2, 0⟩) (VecI2.sub ⟨1, 0⟩ ⟨2, 0⟩) ∧
    Triangle.new (⟨0, 0, 0, 1⟩, ⟨1, 0, 0, 1⟩, ⟨2, 0, 0, 1⟩) = none ∧
    windingCrosses (⟨0, 0, 0⟩, ⟨1, 0, 0⟩, ⟨2, 0, 0⟩) = (0, 0, 0) := by
  have hnc : ¬ RasterTriangle.check_vertices (⟨0, 0⟩, ⟨1, 0⟩, ⟨2, 0⟩)
      (RasterTriangle.segments_from_points (⟨0, 0⟩, ⟨1, 0⟩, ⟨2, 0⟩)) := by
    simp only [RasterTriangle.check_vertices,
      RasterTriangle.segments_from_points, VecI2.add, VecI2.sub, VecI2.neg,
      VecI2.scale, VecI2.cross, ratTrunc]
    norm_num
  have hrect : Triangle.get_rect (VecM.Vector3.ofVector4 ⟨0, 0, 0, 1⟩,
      VecM.Vector3.ofVector4 ⟨1, 0, 0, 1⟩,
      VecM.Vector3.ofVector4 ⟨2, 0, 0, 1⟩) = none := by
    norm_num [Triangle.get_rect, get_max_min, Rect2.new,
      VecM.Vector3.ofVector4, VecM.Vector2.sub, VecM.Vector2.add,
      VecM.Vector2.neg]
  refine ⟨?_, ?_, ?_, ?_, ?_, ?_, ?_⟩
  · simp only [RasterTriangle.new]
    rw [if_neg hnc]
  · simp only [VecI2.add, VecI2.scale, ratTrunc]
    norm_num
  · simp only [VecI2.sub, VecI2.add, VecI2.neg, VecI2.cross]
    norm_num
  · simp only [VecI2.sub, VecI2.add, VecI2.neg, VecI2.cross]
    norm_num
  · simp only [VecI2.sub, VecI2.add, VecI2.neg, VecI2.cross]
    norm_num
  · simp only [Triangle.new, hrect, Option.none_bind]
  · norm_num [windingCrosses, VecM.Vector3.add, VecM.Vector3.sub,
      VecM.Vector3.neg, VecM.Vector3.divScalar, VecM.Vector3.cross]

/-- C3 (amended): the integer constructor `RasterTriangle::new` accepts a
triple iff all three cross products of edge vectors with the centroid
deltas are STRICTLY positive (not merely ≥ 0); the float constructor
`raster.rs` `Triangle::new` accepts iff its bounding rectangle is
non-degenerate (`get_rect` succeeds, both extents at least 1) AND all three
crosses are ≥ 0 as the claim states; under both constructors the clockwise
triple (0,0),(0,100),(100,0) is rejected and the counter-clockwise triple
(0,0),(100,0),(50,50) is accepted. -/
theorem c3_triangle_acceptance (a b c : VecI2) (vs : Triplet4) :
    ((RasterTriangle.new a b c).isSome ↔
      (0 < VecI2.cross (b.sub a) ((((a.add b).add c).scale (1/3)).sub a) ∧
       0 < VecI2.cross (c.sub b) ((((a.add b).add c).scale (1/3)).sub b) ∧
       0 < VecI2.cross (a.sub c) ((((a.add b).add c).scale (1/3)).sub c))) ∧
    ((Triangle.new vs).isSome ↔
      ((Triangle.get_rect (VecM.Vector3.ofVector4 vs.1,
          VecM.Vector3.ofVector4 vs.2.1,
          VecM.Vector3.ofVector4 vs.2.2)).isSome ∧
        0 ≤ (windingCrosses (VecM.Vector3.ofVector4 vs.1,
          VecM.Vector3.ofVector4 vs.2.1,
          VecM.Vector3.ofVector4 vs.2.2)).1 ∧
        0 ≤ (windingCrosses (VecM.Vector3.ofVector4 vs.1,
          VecM.Vector3.ofVector4 vs.2.1,
          VecM.Vector3.ofVector4 vs.2.2)).2.1 ∧
        0 ≤ (windingCrosses (VecM.Vector3.ofVector4 vs.1,
          VecM.Vector3.ofVector4 vs.2.1,
          VecM.Vector3.ofVector4 vs.2.2)).2.2)) ∧
    RasterTriangle.new ⟨0, 0⟩ ⟨0, 100⟩ ⟨100, 0⟩ = none ∧
    (RasterTriangle.new ⟨0, 0⟩ ⟨100, 0⟩ ⟨50, 50⟩).isSome ∧
    Triangle.new (⟨0, 0, 0, 1⟩, ⟨0, 100, 0, 1⟩, ⟨100, 0, 0, 1⟩) = none ∧
    (Triangle.new (⟨0, 0, 0, 1⟩, ⟨100, 0, 0, 1⟩, ⟨50, 50, 0, 1⟩)).isSome := by
  have habs100 : |(100 : ℚ)| = 100 := abs_of_nonneg (by norm_num)
  have habs50 : |(50 : ℚ)| = 50 := abs_of_nonneg (by norm_num)
  refine ⟨?_, ?_, ?_, ?_, ?_, ?_⟩
  · simp only [RasterTriangle.new]
    split_ifs with h
    · simp only [Option.isSome_some, true_iff]
      simpa [RasterTriangle.check_vertices,
        RasterTriangle.segments_from_points] using h
    · simp only [Option.isSome_none, Bool.false_eq_true, false_iff]
      intro hc
      apply h
      simpa [RasterTriangle.check_vertices,
        RasterTriangle.segments_from_points] using hc
  · simp only [Triangle.new]
    cases hrect : Triangle.get_rect (VecM.Vector3.ofVector4 vs.1,
        VecM.Vector3.ofVector4 vs.2.1, VecM.Vector3.ofVector4 vs.2.2) with
    | none => simp [hrect]
    | some rect =>
      simp only [hrect, Option.some_bind]
      split_ifs with hchk
      · simp only [Option.isSome_some, true_iff]
        refine ⟨trivial, ?_⟩
        simpa [Triangle.check, Triangle.segmentsOf, windingCrosses,
          not_lt] using hchk
      · simp only [Option.isSome_none, Bool.false_eq_true, false_iff]
        intro hcontra
        apply hchk
        have h2 := hcontra.2
        simpa [Triangle.check, Triangle.segmentsOf, windingCrosses,
          not_lt] using h2
  · have hnc : ¬ RasterTriangle.check_vertices (⟨0, 0⟩, ⟨0, 100⟩, ⟨100, 0⟩)
        (RasterTriangle.segments_from_points (⟨0, 0⟩, ⟨0, 100⟩, ⟨100, 0⟩)) := by
      simp only [RasterTriangle.check_vertices,
        RasterTriangle.segments_from_points, VecI2.add, VecI2.sub, VecI2.neg,
        VecI2.scale, VecI2.cross, ratTrunc]
      norm_num
    simp only [RasterTriangle.new]
    rw [if_neg hnc]
  · have hc : RasterTriangle.check_vertices (⟨0, 0⟩, ⟨100, 0⟩, ⟨50, 50⟩)
        (RasterTriangle.segments_from_points (⟨0, 0⟩, ⟨100, 0⟩, ⟨50, 50⟩)) := by
      simp only [RasterTriangle.check_vertices,
        RasterTriangle.segments_from_points, VecI2.add, VecI2.sub, VecI2.neg,
        VecI2.scale, VecI2.cross, ratTrunc]
      norm_num
    simp only [RasterTriangle.new]
    rw [if_pos hc]
    rfl
  · have hrect : Triangle.get_rect (VecM.Vector3.ofVector4 ⟨0, 0, 0, 1⟩,
        VecM.Vector3.ofVector4 ⟨0, 100, 0, 1⟩,
        VecM.Vector3.ofVector4 ⟨100, 0, 0, 1⟩) =
          some ⟨⟨0, 0⟩, ⟨100, 100⟩⟩ := by
      norm_num [Triangle.get_rect, get_max_min, Rect2.new,
        VecM.Vector3.ofVector4, VecM.Vector2.sub, VecM.Vector2.add,
        VecM.Vector2.neg, habs100]
    have hnchk : ¬ Triangle.check (VecM.Vector3.ofVector4 ⟨0, 0, 0, 1⟩,
        VecM.Vector3.ofVector4 ⟨0, 100, 0, 1⟩,
        VecM.Vector3.ofVector4 ⟨100, 0, 0, 1⟩)
        (Triangle.segmentsOf (VecM.Vector3.ofVector4 ⟨0, 0, 0, 1⟩,
          VecM.Vector3.ofVector4 ⟨0, 100, 0, 1⟩,
          VecM.Vector3.ofVector4 ⟨100, 0, 0, 1⟩)) := by
      norm_num [Triangle.check, Triangle.segmentsOf, VecM.Vector3.ofVector4,
        VecM.Vector3.add, VecM.Vector3.sub, VecM.Vector3.neg,
        VecM.Vector3.divScalar, VecM.Vector3.cross]
    simp only [Triangle.new, hrect, Option.some_bind]
    rw [if_neg hnchk]
  · have hrect : Triangle.get_rect (VecM.Vector3.ofVector4 ⟨0, 0, 0, 1⟩,
        VecM.Vector3.ofVector4 ⟨100, 0, 0, 1⟩,
        VecM.Vector3.ofVector4 ⟨50, 50, 0, 1⟩) =
          some ⟨⟨0, 0⟩, ⟨100, 50⟩⟩ := by
      norm_num [Triangle.get_rect, get_max_min, Rect2.new,
        VecM.Vector3.ofVector4, VecM.Vector2.sub, VecM.Vector2.add,
        VecM.Vector2.neg, habs100, habs50]
    have hchk : Triangle.check (VecM.Vector3.ofVector4 ⟨0, 0, 0, 1⟩,
        VecM.Vector3.ofVector4 ⟨100, 0, 0, 1⟩,
        VecM.Vector3.ofVector4 ⟨50, 50, 0, 1⟩)
        (Triangle.segmentsOf (VecM.Vector3.ofVector4 ⟨0, 0, 0, 1⟩,
          VecM.Vector3.ofVector4 ⟨100, 0, 0, 1⟩,
          VecM.Vector3.ofVector4 ⟨50, 50, 0, 1⟩)) := by
      norm_num [Triangle.check, Triangle.segmentsOf, VecM.Vector3.ofVector4,
        VecM.Vector3.add, VecM.Vector3.sub, VecM.Vector3.neg,
        VecM.Vector3.divScalar, VecM.Vector3.cross]
    simp only [Triangle.new, hrect, Option.some_bind]
    rw [if_pos hchk]
    rfl

/-- The incremental interpolators of `TriangleIter` compute exactly the
edge-function values at each pixel (the standard edge-function identity
`edge(start) + dx·(-seg.y) + dy·(seg.x) = edge(start + (dx,dy))`). -/
theorem TriangleIter.calc_eq_edgeValues (t : Triangle) (p : VecM.Vector2 ℤ) :
    ((TriangleIter.crosses t).2.1.calc
        ((VecM.Vector2.sub ⟨(p.x : ℚ), (p.y : ℚ)⟩ t.rect.start).x)
        ((VecM.Vector2.sub ⟨(p.x : ℚ), (p.y : ℚ)⟩ t.rect.start).y)
      = (t.edgeValuesAt p).2.1) ∧
    ((TriangleIter.crosses t).2.2.calc
        ((VecM.Vector2.sub ⟨(p.x : ℚ), (p.y : ℚ)⟩ t.rect.start).x)
        ((VecM.Vector2.sub ⟨(p.x : ℚ), (p.y : ℚ)⟩ t.rect.start).y)
      = (t.edgeValuesAt p).2.2) ∧
    ((TriangleIter.crosses t).1.calc
        ((VecM.Vector2.sub ⟨(p.x : ℚ), (p.y : ℚ)⟩ t.rect.start).x)
        ((VecM.Vector2.sub ⟨(p.x : ℚ), (p.y : ℚ)⟩ t.rect.start).y)
      = (t.edgeValuesAt p).1) := by
  refine ⟨?_, ?_, ?_⟩ <;>
    (simp only [TriangleIter.crosses, LinearInterpolator.calc,
      Triangle.edgeValuesAt, VecM.Vector2.sub, VecM.Vector2.add,
      VecM.Vector2.neg, VecM.Vector2.ofVector3, VecM.Vector3.ofVector2,
      VecM.Vector3.cross]
     ring)

/-- C4 (amended): the float scan converter (`TriangleIter`) yields a
fragment for a scanned pixel iff all three edge-function values there are
STRICTLY positive, so pixels lying exactly on an edge are never yielded by
it; the integer rasterizer (`Rasterizer`), by contrast, yields a fragment
iff all three edge values are ≥ 0, so it DOES yield pixels on an edge. -/
theorem c4_scan_inside_policy (t : Triangle) (p : VecM.Vector2 ℤ)
    (r : Rasterizer) (q : VecI2) :
    ((∃ f ∈ t.fragments, f.position.x = (p.x : ℚ) ∧
        f.position.y = (p.y : ℚ)) ↔
      (p ∈ t.pixels ∧ 0 < (t.edgeValuesAt p).1 ∧
        0 < (t.edgeValuesAt p).2.1 ∧ 0 < (t.edgeValuesAt p).2.2)) ∧
    ((∃ g ∈ r.fragments, g.position = q) ↔
      (q ∈ RectI2Iter.toList r.iter ∧ 0 ≤ (r.cofs q).1 ∧
        0 ≤ (r.cofs q).2.1 ∧ 0 ≤ (r.cofs q).2.2)) := by
  constructor
  · constructor
    · rintro ⟨f, hf, hfx, hfy⟩
      obtain ⟨p', hp', hfp⟩ := List.mem_filterMap.1 hf
      have hid := TriangleIter.calc_eq_edgeValues t p'
      simp only [TriangleIter.fragAt] at hfp
      split_ifs at hfp with hc
      have hfeq := (Option.some.inj hfp).symm
      have hx' : (p'.x : ℚ) = (p.x : ℚ) := by rw [hfeq] at hfx; exact hfx
      have hy' : (p'.y : ℚ) = (p.y : ℚ) := by rw [hfeq] at hfy; exact hfy
      have hpp : p' = p := by
        cases p'; cases p
        simp only at hx' hy'
        rw [Int.cast_injective hx', Int.cast_injective hy']
      subst hpp
      rw [hid.1, hid.2.1, hid.2.2] at hc
      exact ⟨hp', hc.2.2, hc.1, hc.2.1⟩
    · rintro ⟨hp, h1, h2, h3⟩
      have hid := TriangleIter.calc_eq_edgeValues t p
      have hcond :
          (TriangleIter.crosses t).2.1.calc
              ((VecM.Vector2.sub ⟨(p.x : ℚ), (p.y : ℚ)⟩ t.rect.start).x)
              ((VecM.Vector2.sub ⟨(p.x : ℚ), (p.y : ℚ)⟩ t.rect.start).y)
            > 0 ∧
          (TriangleIter.crosses t).2.2.calc
              ((VecM.Vector2.sub ⟨(p.x : ℚ), (p.y : ℚ)⟩ t.rect.start).x)
              ((VecM.Vector2.sub ⟨(p.x : ℚ), (p.y : ℚ)⟩ t.rect.start).y)
            > 0 ∧
          (TriangleIter.crosses t).1.calc
              ((VecM.Vector2.sub ⟨(p.x : ℚ), (p.y : ℚ)⟩ t.rect.start).x)
              ((VecM.Vector2.sub ⟨(p.x : ℚ), (p.y : ℚ)⟩ t.rect.start).y)
            > 0 := by
        rw [hid.1, hid.2.1, hid.2.2]
        exact ⟨h2, h3, h1⟩
      obtain ⟨f, hf⟩ : ∃ f, TriangleIter.fragAt t p = some f := by
        simp only [TriangleIter.fragAt]
        rw [if_pos hcond]
        exact ⟨_, rfl⟩
      have hfpos : f.position.x = (p.x : ℚ) ∧ f.position.y = (p.y : ℚ) := by
        simp only [TriangleIter.fragAt] at hf
        rw [if_pos hcond] at hf
        rw [← Option.some.inj hf]
        exact ⟨rfl, rfl⟩
      exact ⟨f, List.mem_filterMap.2 ⟨p, hp, hf⟩, hfpos.1, hfpos.2⟩
  · constructor
    · rintro ⟨g, hg, hgq⟩
      obtain ⟨q', hq', hgq'⟩ := List.mem_filterMap.1 hg
      simp only [Rasterizer.fragAt] at hgq'
      split_ifs at hgq' with hc
      have hgeq := (Option.some.inj hgq').symm
      have : q' = q := by rw [hgeq] at hgq; exact hgq
      subst this
      exact ⟨hq', hc⟩
    · rintro ⟨hq, h1, h2, h3⟩
      obtain ⟨g, hg⟩ : ∃ g, Rasterizer.fragAt r q = some g := by
        simp only [Rasterizer.fragAt]
        rw [if_pos ⟨h1, h2, h3⟩]
        exact ⟨_, rfl⟩
      have hgpos : g.position = q := by
        simp only [Rasterizer.fragAt] at hg
        rw [if_pos ⟨h1, h2, h3⟩] at hg
        rw [← Option.some.inj hg]
      exact ⟨g, List.mem_filterMap.2 ⟨q, hq, hg⟩, hgpos⟩

/-- The (uncropped) rasterizer `Rasterizer::new` builds for `c10tri`:
bounding rectangle (0,0)–(4,3). -/
def c4rast : Rasterizer :=
  ⟨⟨⟨⟨0, 0⟩, ⟨4, 3⟩⟩, ⟨4, 3⟩, 0⟩, 12, (0, 12, 0),
    (⟨0, 4⟩, ⟨-3, -2⟩, ⟨3, -2⟩)⟩

/-- `Rasterizer::new` on `c10tri` yields exactly `c4rast`. -/
theorem c4rast_new : Rasterizer.new c10tri = some c4rast := by
  have h1 : Rasterizer.get_area c10tri = some ⟨⟨0, 0⟩, ⟨4, 3⟩⟩ := rfl
  have h2 : Rasterizer.calculate_starts c10tri ⟨0, 0⟩ = (0, 12, 0) := by
    simp only [Rasterizer.calculate_starts, c10tri, VecI2.sub, VecI2.add,
      VecI2.neg, VecI2.cross, ratTrunc]
    norm_num
  have h3 : |VecI2.cross c10tri.segments.1 c10tri.segments.2.1| = (12 : ℚ) := by
    simp only [c10tri, VecI2.cross]
    norm_num
  simp only [Rasterizer.new, h1, Option.some_bind, Option.some.injEq, c4rast,
    Rasterizer.mk.injEq]
  exact ⟨rfl, h3, h2, rfl⟩

/-- C4 counterexample: the accepted triangle (0,0),(4,0),(2,3) produces, at
the vertex pixel (0,0), edge values (12, 0, 0) — two of them 0, i.e. the
pixel lies exactly on two edges — yet the integer rasterizer yields a
fragment there (its inside test is `>= 0`, not `> 0`). -/
theorem c4_edge_pixel_is_yielded :
    RasterTriangle.new ⟨0, 0⟩ ⟨4, 0⟩ ⟨2, 3⟩ = some c10tri ∧
    Rasterizer.new c10tri = some c4rast ∧
    ((c4rast.fragments.head?).map Fragment.position) = some ⟨0, 0⟩ ∧
    (c4rast.cofs ⟨0, 0⟩).2.1 = 0 ∧
    (c4rast.cofs ⟨0, 0⟩).2.2 = 0 :=
  ⟨c10tri_new, c4rast_new, rfl, rfl, rfl⟩

/-- Renormalizing three positive perspective-divided edge values yields
weights that are positive and sum to one. -/
theorem barycentricNormalize_arith (a b c wa wb wc : ℚ)
    (ha : 0 < a) (hb : 0 < b) (hc : 0 < c)
    (hwa : 0 < wa) (hwb : 0 < wb) (hwc : 0 < wc) :
    (a / wa) / (a / wa + b / wb + c / wc) +
      (b / wb) / (a / wa + b / wb + c / wc) +
      (c / wc) / (a / wa + b / wb + c / wc) = 1 ∧
    0 < (a / wa) / (a / wa + b / wb + c / wc) ∧
    0 < (b / wb) / (a / wa + b / wb + c / wc) ∧
    0 < (c / wc) / (a / wa + b / wb + c / wc) := by
  have h0 : 0 < a / wa := div_pos ha hwa
  have h1 : 0 < b / wb := div_pos hb hwb
  have h2 : 0 < c / wc := div_pos hc hwc
  have hs : 0 < a / wa + b / wb + c / wc := by linarith
  refine ⟨?_, div_pos h0 hs, div_pos h1 hs, div_pos h2 hs⟩
  rw [div_add_div_same, div_add_div_same, div_self (ne_of_gt hs)]

/-- C5 (amended): for every accepted triangle whose three retained
clip-space w components are strictly positive, every fragment the float
scan converter yields has barycentric weights that sum to exactly 1 and are
each strictly positive.  (Without the positivity of the ws this fails: a
negative w produces a negative weight.) -/
theorem c5_barycentric_weights (vs : Triplet4) (t : Triangle)
    (ht : Triangle.new vs = some t)
    (hw0 : 0 < t.ws.x) (hw1 : 0 < t.ws.y) (hw2 : 0 < t.ws.z)
    (f : FragmentF) (hf : f ∈ t.fragments) :
    f.coefs.x + f.coefs.y + f.coefs.z = 1 ∧
    0 < f.coefs.x ∧ 0 < f.coefs.y ∧ 0 < f.coefs.z := by
  clear ht
  obtain ⟨p, _, hfp⟩ := List.mem_filterMap.1 hf
  simp only [TriangleIter.fragAt] at hfp
  split_ifs at hfp with hc
  obtain ⟨hc0, hc1, hc2⟩ := hc
  rw [← Option.some.inj hfp]
  simp only [VecM.Vector3.divScalar]
  exact barycentricNormalize_arith _ _ _ _ _ _ hc0 hc1 hc2 hw0 hw1 hw2

/-- An accepted float triangle whose first vertex has clip-space w = −1:
`Triangle::new` divides the positions through (so the screen triangle is
(−1/2,−1/2), (5/2,−1/2), (1,2)) but stores ws = (−1, 1, 1). -/
def c5tri : Triangle :=
  ⟨(⟨-(1/2), -(1/2), 0⟩, ⟨5/2, -(1/2), 0⟩, ⟨1, 2, 0⟩),
   (⟨3, 0, 0⟩, ⟨-(3/2), 5/2, 0⟩, ⟨-(3/2), -(5/2), 0⟩),
   ⟨-1, 1, 1⟩,
   ⟨⟨-(1/2), -(1/2)⟩, ⟨5/2, 2⟩⟩⟩

/-- `Triangle::new` accepts the w = (−1,1,1) triple and builds `c5tri`. -/
theorem c5tri_new :
    Triangle.new (⟨1/2, 1/2, 0, -1⟩, ⟨5/2, -(1/2), 0, 1⟩, ⟨1, 2, 0, 1⟩) =
      some c5tri := by
  norm_num [Triangle.new, Triangle.get_rect, Triangle.segmentsOf,
    Triangle.check, get_max_min, Rect2.new, VecM.Vector3.ofVector4,
    VecM.Vector3.add, VecM.Vector3.sub, VecM.Vector3.neg,
    VecM.Vector3.divScalar, VecM.Vector3.cross, VecM.Vector2.sub,
    VecM.Vector2.add, VecM.Vector2.neg, c5tri]
  rw [show |(5 : ℚ) / 2| = 5 / 2 from abs_of_nonneg (by norm_num)]
  norm_num

/-- The fragment `TriangleIter` yields at pixel (0,0) of `c5tri`: the raw
edge values are (11/2, 1/2, 3/2), dividing by ws = (−1,1,1) gives
(−11/2, 1/2, 3/2) with sum −7/2, so the renormalized weights are
(11/7, −1/7, −3/7) — the y and z weights are negative. -/
def c5frag : FragmentF :=
  ⟨⟨0, 0, 0⟩, ⟨11/7, -(1/7), -(3/7)⟩⟩

/-- The scan converter's per-pixel body on `c5tri` at (0,0). -/
theorem c5frag_at : TriangleIter.fragAt c5tri ⟨0, 0⟩ = some c5frag := by
  norm_num [TriangleIter.fragAt, TriangleIter.crosses, TriangleIter.zs,
    LinearInterpolator.calc, VecM.Vector2.sub, VecM.Vector2.add,
    VecM.Vector2.neg, VecM.Vector2.ofVector3, VecM.Vector3.ofVector2,
    VecM.Vector3.cross, VecM.Vector3.dot, VecM.Vector3.divScalar, c5tri,
    c5frag]

/-- C5 counterexample: `c5tri` is an accepted triangle (constructed by
`Triangle::new`), yet its very first fragment has a negative barycentric
weight (coefs.y = −1/7 < 0); the weights still sum to 1.  The claim "every
yielded fragment's weights are each strictly greater than 0" fails for
accepted triangles with a negative clip-space w. -/
theorem c5_fragment_with_negative_weight :
    Triangle.new (⟨1/2, 1/2, 0, -1⟩, ⟨5/2, -(1/2), 0, 1⟩, ⟨1, 2, 0, 1⟩) =
      some c5tri ∧
    (Triangle.fragments c5tri).head? = some c5frag ∧
    c5frag.coefs.y < 0 ∧
    c5frag.coefs.x + c5frag.coefs.y + c5frag.coefs.z = 1 := by
  have hiter : Rect2Iter.new c5tri.rect = ⟨⟨0, 0⟩, ⟨2, 2⟩, ⟨0, 0⟩⟩ := by
    norm_num [Rect2Iter.new, c5tri, ratTrunc, Int.ceil_neg]
  have hpix : Triangle.pixels c5tri =
      ⟨0, 0⟩ :: Rect2Iter.run 16 ⟨⟨0, 0⟩, ⟨2, 2⟩, ⟨1, 0⟩⟩ := by
    rw [Triangle.pixels, hiter]
    rfl
  refine ⟨c5tri_new, ?_, by norm_num [c5frag], by norm_num [c5frag]⟩
  rw [Triangle.fragments, hpix, List.filterMap_cons, c5frag_at]
  rfl

/-- The same screen triangle as `c5tri` but with all clip-space ws = 1. -/
def c5ptri : Triangle :=
  ⟨(⟨-(1/2), -(1/2), 0⟩, ⟨5/2, -(1/2), 0⟩, ⟨1, 2, 0⟩),
   (⟨3, 0, 0⟩, ⟨-(3/2), 5/2, 0⟩, ⟨-(3/2), -(5/2), 0⟩),
   ⟨1, 1, 1⟩,
   ⟨⟨-(1/2), -(1/2)⟩, ⟨5/2, 2⟩⟩⟩

/-- `Triangle::new` accepts the all-w = 1 triple and builds `c5ptri`. -/
theorem c5ptri_new :
    Triangle.new (⟨-(1/2), -(1/2), 0, 1⟩, ⟨5/2, -(1/2), 0, 1⟩,
      ⟨1, 2, 0, 1⟩) = some c5ptri := by
  norm_num [Triangle.new, Triangle.get_rect, Triangle.segmentsOf,
    Triangle.check, get_max_min, Rect2.new, VecM.Vector3.ofVector4,
    VecM.Vector3.add, VecM.Vector3.sub, VecM.Vector3.neg,
    VecM.Vector3.divScalar, VecM.Vector3.cross, VecM.Vector2.sub,
    VecM.Vector2.add, VecM.Vector2.neg, c5ptri]
  rw [show |(5 : ℚ) / 2| = 5 / 2 from abs_of_nonneg (by norm_num)]
  norm_num

/-- The fragment at pixel (0,0) of `c5ptri`: weights (11/15, 1/15, 1/5). -/
def c5pfrag : FragmentF :=
  ⟨⟨0, 0, 0⟩, ⟨11/15, 1/15, 1/5⟩⟩

/-- The scan converter's per-pixel body on `c5ptri` at (0,0). -/
theorem c5pfrag_at : TriangleIter.fragAt c5ptri ⟨0, 0⟩ = some c5pfrag := by
  norm_num [TriangleIter.fragAt, TriangleIter.crosses, TriangleIter.zs,
    LinearInterpolator.calc, VecM.Vector2.sub, VecM.Vector2.add,
    VecM.Vector2.neg, VecM.Vector2.ofVector3, VecM.Vector3.ofVector2,
    VecM.Vector3.cross, VecM.Vector3.dot, VecM.Vector3.divScalar, c5ptri,
    c5pfrag]

/-- C5 witness: on the accepted all-positive-w triangle `c5ptri`, the
fragment at (0,0) has weights summing to 1, each positive. -/
theorem c5_barycentric_weights_witness :
    c5pfrag.coefs.x + c5pfrag.coefs.y + c5pfrag.coefs.z = 1 ∧
    0 < c5pfrag.coefs.x ∧ 0 < c5pfrag.coefs.y ∧ 0 < c5pfrag.coefs.z :=
  c5_barycentric_weights
    (⟨-(1/2), -(1/2), 0, 1⟩, ⟨5/2, -(1/2), 0, 1⟩, ⟨1, 2, 0, 1⟩) c5ptri
    c5ptri_new (by norm_num [c5ptri]) (by norm_num [c5ptri])
    (by norm_num [c5ptri]) c5pfrag
    (by
      have hiter : Rect2Iter.new c5ptri.rect = ⟨⟨0, 0⟩, ⟨2, 2⟩, ⟨0, 0⟩⟩ := by
        norm_num [Rect2Iter.new, c5ptri, ratTrunc, Int.ceil_neg]
      have hpix : Triangle.pixels c5ptri =
          ⟨0, 0⟩ :: Rect2Iter.run 16 ⟨⟨0, 0⟩, ⟨2, 2⟩, ⟨1, 0⟩⟩ := by
        rw [Triangle.pixels, hiter]
        rfl
      rw [Triangle.fragments, hpix, List.filterMap_cons, c5pfrag_at]
      exact List.mem_cons_self _ _)

/-- The row-major enumeration (x fastest, inclusive bounds) that the spec
describes; used as the reference against which the iterators are checked. -/
def rowMajorWith {α : Type} (mk : ℤ → ℤ → α) (sx ex sy ey : ℤ) : List α :=
  (List.range ((ey + 1 - sy).toNat)).flatMap fun j : ℕ =>
    (List.range ((ex + 1 - sx).toNat)).map fun i : ℕ =>
      mk (sx + (i : ℤ)) (sy + (j : ℤ))

/-- An empty row range enumerates nothing. -/
theorem rowMajorWith_nil {α : Type} (mk : ℤ → ℤ → α) (sx ex sy ey : ℤ)
    (h : ey < sy) : rowMajorWith mk sx ex sy ey = [] := by
  rw [rowMajorWith, show (ey + 1 - sy).toNat = 0 by omega]
  rfl

/-- Peeling the first row off the row-major enumeration. -/
theorem rowMajorWith_cons {α : Type} (mk : ℤ → ℤ → α) (sx ex sy ey : ℤ)
    (h : sy ≤ ey) :
    rowMajorWith mk sx ex sy ey =
      ((List.range ((ex + 1 - sx).toNat)).map
          fun i : ℕ => mk (sx + (i : ℤ)) sy) ++
        rowMajorWith mk sx ex (sy + 1) ey := by
  rw [rowMajorWith, rowMajorWith,
    show (ey + 1 - sy).toNat = (ey + 1 - (sy + 1)).toNat + 1 by omega,
    List.range_succ_eq_map, List.flatMap_cons, List.flatMap_map]
  congr 1
  · simp
  · have harg : ∀ j : ℕ, sy + ((j + 1 : ℕ) : ℤ) = sy + 1 + (j : ℤ) := by
      intro j
      push_cast
      ring
    congr 1
    funext j
    congr 1
    funext i
    rw [show sy + ((Nat.succ j : ℕ) : ℤ) = sy + 1 + (j : ℤ) from harg j]

/-- Membership in the row-major enumeration is exactly the inclusive
rectangle bounds. -/
theorem mem_rowMajorWith_vec (sx ex sy ey : ℤ) (p : VecM.Vector2 ℤ) :
    p ∈ rowMajorWith VecM.Vector2.mk sx ex sy ey ↔
      (sx ≤ p.x ∧ p.x ≤ ex ∧ sy ≤ p.y ∧ p.y ≤ ey) := by
  rw [rowMajorWith]
  simp only [List.mem_flatMap, List.mem_map, List.mem_range]
  constructor
  · rintro ⟨j, hj, i, hi, rfl⟩
    simp only
    omega
  · rintro ⟨h1, h2, h3, h4⟩
    cases p with
    | mk a b =>
      dsimp only at h1 h2 h3 h4
      refine ⟨(b - sy).toNat, by omega, (a - sx).toNat, by omega, ?_⟩
      simp only [VecM.Vector2.mk.injEq]
      constructor <;> omega

/-- The row-major enumeration has no duplicates. -/
theorem nodup_rowMajorWith_vec (sx ex sy ey : ℤ) :
    (rowMajorWith VecM.Vector2.mk sx ex sy ey).Nodup := by
  rw [rowMajorWith, List.nodup_flatMap]
  constructor
  · intro j _
    refine List.Nodup.map ?_ (List.nodup_range _)
    intro i1 i2 h
    simp only [VecM.Vector2.mk.injEq] at h
    omega
  · refine List.Pairwise.imp ?_ (List.pairwise_lt_range _)
    intro j1 j2 hlt a ha ha'
    obtain ⟨i1, _, rfl⟩ := List.mem_map.1 ha
    obtain ⟨i2, _, heq⟩ := List.mem_map.1 ha'
    simp only [VecM.Vector2.mk.injEq] at heq
    omega

/-- Each pixel of the inclusive rectangle appears exactly once in the
row-major enumeration; pixels outside it never appear. -/
theorem count_rowMajorWith_vec (sx ex sy ey : ℤ) (p : VecM.Vector2 ℤ) :
    List.count p (rowMajorWith VecM.Vector2.mk sx ex sy ey) =
      if sx ≤ p.x ∧ p.x ≤ ex ∧ sy ≤ p.y ∧ p.y ≤ ey then 1 else 0 := by
  split_ifs with h
  · exact List.count_eq_one_of_mem (nodup_rowMajorWith_vec sx ex sy ey)
      ((mem_rowMajorWith_vec sx ex sy ey p).2 h)
  · exact List.count_eq_zero_of_not_mem
      (fun hc => h ((mem_rowMajorWith_vec sx ex sy ey p).1 hc))

/-- One `Rect2Iter.next` step when exhausted. -/
theorem Rect2Iter.next_exhausted (s e c : VecM.Vector2 ℤ) (h : e.y < c.y) :
    Rect2Iter.next ⟨s, e, c⟩ = none := by
  unfold Rect2Iter.next
  dsimp only
  rw [if_pos (by omega)]

/-- One `Rect2Iter.next` step within a row (the next pixel stays in it). -/
theorem Rect2Iter.next_step (s e c : VecM.Vector2 ℤ) (hy : c.y ≤ e.y)
    (hx : c.x + 1 ≤ e.x) :
    Rect2Iter.next ⟨s, e, c⟩ = some (c, ⟨s, e, ⟨c.x + 1, c.y⟩⟩) := by
  unfold Rect2Iter.next
  dsimp only
  rw [if_neg (by omega), if_neg (by omega)]

/-- One `Rect2Iter.next` step at the end of a row (wraps to the next). -/
theorem Rect2Iter.next_wrap (s e c : VecM.Vector2 ℤ) (hy : c.y ≤ e.y)
    (hx : e.x < c.x + 1) :
    Rect2Iter.next ⟨s, e, c⟩ = some (c, ⟨s, e, ⟨s.x, c.y + 1⟩⟩) := by
  unfold Rect2Iter.next
  dsimp only
  rw [if_neg (by omega), if_pos (by omega)]

/-- The number of pixels a `Rect2Iter` state still yields. -/
def rect2Count (st : Rect2Iter) : ℕ :=
  if st.endp.y < st.current.y then 0
  else ((st.endp.x + 1 - st.current.x) +
      (st.endp.y - st.current.y) * (st.endp.x + 1 - st.start.x)).toNat

/-- Closed form of `Rect2Iter.run`: with enough fuel, a well-formed state
yields the rest of its current row followed by all rows below. -/
theorem Rect2Iter.run_closed_form :
    ∀ (n : ℕ) (st : Rect2Iter),
      st.start.x ≤ st.endp.x →
      st.start.x ≤ st.current.x → st.current.x ≤ st.endp.x →
      n = rect2Count st → ∀ fuel, n < fuel →
      Rect2Iter.run fuel st =
        (if st.endp.y < st.current.y then []
         else
          ((List.range ((st.endp.x + 1 - st.current.x).toNat)).map
              fun i : ℕ =>
                (⟨st.current.x + (i : ℤ), st.current.y⟩ : VecM.Vector2 ℤ)) ++
            rowMajorWith VecM.Vector2.mk st.start.x st.endp.x
              (st.current.y + 1) st.endp.y) := by
  intro n
  induction n with
  | zero =>
    rintro ⟨s, e, c⟩ hse hsc hce hn fuel hf
    dsimp only at hse hsc hce
    obtain ⟨f, rfl⟩ : ∃ f, fuel = f + 1 := ⟨fuel - 1, by omega⟩
    rw [rect2Count] at hn
    split_ifs at hn with hy
    · rw [Rect2Iter.run, Rect2Iter.next_exhausted s e c (by dsimp only at hy ⊢; omega)]
      rw [if_pos (by dsimp only at hy ⊢; omega)]
    · exfalso
      dsimp only at hy hn
      have hprod : 0 ≤ (e.y - c.y) * (e.x + 1 - s.x) :=
        mul_nonneg (by omega) (by omega)
      have : (1 : ℤ) ≤ (e.x + 1 - c.x) + (e.y - c.y) * (e.x + 1 - s.x) := by
        have h1 : (1 : ℤ) ≤ e.x + 1 - c.x := by omega
        linarith
      omega
  | succ m ih =>
    rintro ⟨s, e, c⟩ hse hsc hce hn fuel hf
    dsimp only at hse hsc hce
    obtain ⟨f, rfl⟩ : ∃ f, fuel = f + 1 := ⟨fuel - 1, by omega⟩
    rw [rect2Count] at hn
    split_ifs at hn with hy
    dsimp only at hy hn ⊢
    rw [if_neg (by omega)]
    by_cases hwrap : c.x + 1 ≤ e.x
    · -- still inside the row
      rw [Rect2Iter.run,
        Rect2Iter.next_step s e c (by omega) (by omega)]
      have hn' : m = rect2Count ⟨s, e, ⟨c.x + 1, c.y⟩⟩ := by
        rw [rect2Count]
        dsimp only
        rw [if_neg (by omega)]
        generalize hP : (e.y - c.y) * (e.x + 1 - s.x) = P at hn ⊢
        have hP0 : 0 ≤ P := hP ▸ mul_nonneg (by omega) (by omega)
        omega
      have ihh := ih ⟨s, e, ⟨c.x + 1, c.y⟩⟩ hse (by dsimp only; omega)
        (by dsimp only; omega) hn' f (by omega)
      dsimp only at ihh
      dsimp only
      rw [ihh]
      rw [if_neg (by omega)]
      rw [show (e.x + 1 - c.x).toNat = (e.x + 1 - (c.x + 1)).toNat + 1 by
        omega]
      rw [List.range_succ_eq_map, List.map_cons, List.map_map]
      simp only [Nat.cast_zero, add_zero, List.cons_append]
      congr 2
      apply List.map_congr_left
      intro i _
      simp only [Function.comp_apply, VecM.Vector2.mk.injEq]
      refine ⟨by push_cast; ring, trivial⟩
    · -- row finished: wrap to the next one
      rw [Rect2Iter.run,
        Rect2Iter.next_wrap s e c (by omega) (by omega)]
      have hcx : c.x = e.x := by omega
      have hn' : m = rect2Count ⟨s, e, ⟨s.x, c.y + 1⟩⟩ := by
        rw [rect2Count]
        dsimp only
        rw [hcx] at hn
        split_ifs with hy2
        · have hyc : e.y = c.y := by omega
          rw [hyc] at hn
          simp only [sub_self, zero_mul] at hn
          omega
        · have hrw : (e.x + 1 - s.x) + (e.y - (c.y + 1)) * (e.x + 1 - s.x)
              = (e.y - c.y) * (e.x + 1 - s.x) := by ring
          rw [hrw]
          generalize hP : (e.y - c.y) * (e.x + 1 - s.x) = P at hn ⊢
          have hW : (1 : ℤ) ≤ e.x + 1 - s.x := by omega
          have hP1 : (e.x + 1 - s.x) ≤ P := by
            rw [← hP]
            nlinarith
          omega
      have ihh := ih ⟨s, e, ⟨s.x, c.y + 1⟩⟩ hse (by dsimp only; omega)
        (by dsimp only; omega) hn' f (by omega)
      dsimp only at ihh
      dsimp only
      rw [ihh]
      rw [show (e.x + 1 - c.x).toNat = 1 by omega]
      by_cases hy2 : e.y < c.y + 1
      · rw [if_pos hy2, rowMajorWith_nil _ _ _ _ _ (by omega)]
        rw [show List.range 1 = [0] from rfl]
        simp
      · rw [if_neg hy2,
          rowMajorWith_cons VecM.Vector2.mk s.x e.x (c.y + 1) e.y (by omega)]
        rw [show List.range 1 = [0] from rfl]
        simp

/-- `Rect2Iter::new` normalizes the truncated corners into
min/max form, starting iteration at the minimum corner. -/
theorem Rect2Iter.new_eq (rect : Rect2) :
    Rect2Iter.new rect =
      ⟨⟨min (ratTrunc rect.start.x) (ratTrunc rect.endp.x),
        min (ratTrunc rect.start.y) (ratTrunc rect.endp.y)⟩,
       ⟨max (ratTrunc rect.start.x) (ratTrunc rect.endp.x),
        max (ratTrunc rect.start.y) (ratTrunc rect.endp.y)⟩,
       ⟨min (ratTrunc rect.start.x) (ratTrunc rect.endp.x),
        min (ratTrunc rect.start.y) (ratTrunc rect.endp.y)⟩⟩ := by
  have h1 : ∀ a b : ℤ, (if a < b then (a, b) else (b, a)).1 = min a b := by
    intro a b
    split_ifs <;> omega
  have h2 : ∀ a b : ℤ, (if a < b then (a, b) else (b, a)).2 = max a b := by
    intro a b
    split_ifs <;> omega
  rw [Rect2Iter.new]
  simp only [h1, h2]

/-- A freshly started `Rect2Iter` over a normalized rectangle runs through
exactly the row-major enumeration. -/
theorem rect2_run_full (sx ex sy ey : ℤ) (hx : sx ≤ ex) (hy : sy ≤ ey)
    (fuel : ℕ) (hf : rect2Count ⟨⟨sx, sy⟩, ⟨ex, ey⟩, ⟨sx, sy⟩⟩ < fuel) :
    Rect2Iter.run fuel ⟨⟨sx, sy⟩, ⟨ex, ey⟩, ⟨sx, sy⟩⟩ =
      rowMajorWith VecM.Vector2.mk sx ex sy ey := by
  rw [Rect2Iter.run_closed_form (rect2Count ⟨⟨sx, sy⟩, ⟨ex, ey⟩, ⟨sx, sy⟩⟩)
    ⟨⟨sx, sy⟩, ⟨ex, ey⟩, ⟨sx, sy⟩⟩ (by dsimp only; omega) (by dsimp only; omega)
    (by dsimp only; omega) rfl fuel hf]
  dsimp only
  rw [if_neg (by omega), ← rowMajorWith_cons _ _ _ _ _ hy]

/-- The full `Rect2Iter` pixel list of a float rectangle is the row-major
enumeration of the truncated, normalized integer rectangle. -/
theorem rect2_toList_eq_rowMajor (rect : Rect2) :
    Rect2Iter.toList (Rect2Iter.new rect) =
      rowMajorWith VecM.Vector2.mk
        (min (ratTrunc rect.start.x) (ratTrunc rect.endp.x))
        (max (ratTrunc rect.start.x) (ratTrunc rect.endp.x))
        (min (ratTrunc rect.start.y) (ratTrunc rect.endp.y))
        (max (ratTrunc rect.start.y) (ratTrunc rect.endp.y)) := by
  rw [Rect2Iter.toList, Rect2Iter.new_eq]
  dsimp only
  have hx : min (ratTrunc rect.start.x) (ratTrunc rect.endp.x) ≤
      max (ratTrunc rect.start.x) (ratTrunc rect.endp.x) := min_le_max
  have hy : min (ratTrunc rect.start.y) (ratTrunc rect.endp.y) ≤
      max (ratTrunc rect.start.y) (ratTrunc rect.endp.y) := min_le_max
  apply rect2_run_full _ _ _ _ hx hy
  generalize min (ratTrunc rect.start.x) (ratTrunc rect.endp.x) = sx at hx ⊢
  generalize max (ratTrunc rect.start.x) (ratTrunc rect.endp.x) = ex at hx ⊢
  generalize min (ratTrunc rect.start.y) (ratTrunc rect.endp.y) = sy at hy ⊢
  generalize max (ratTrunc rect.start.y) (ratTrunc rect.endp.y) = ey at hy ⊢
  rw [rect2Count]
  dsimp only
  rw [if_neg (by omega)]
  have hA : (((ex + 1 - sx).toNat : ℤ)) = ex + 1 - sx :=
    Int.toNat_of_nonneg (by omega)
  have hB : (((ey + 1 - sy).toNat : ℤ)) = ey + 1 - sy :=
    Int.toNat_of_nonneg (by omega)
  have hX : (0 : ℤ) ≤ ex + 1 - sx + (ey - sy) * (ex + 1 - sx) := by nlinarith
  have hXt : (((ex + 1 - sx + (ey - sy) * (ex + 1 - sx)).toNat : ℤ)) =
      ex + 1 - sx + (ey - sy) * (ex + 1 - sx) := Int.toNat_of_nonneg hX
  rw [← Nat.cast_lt (α := ℤ)]
  push_cast
  rw [hXt, hA, hB]
  nlinarith

/-- Splitting the first `size.x * m` indices of `RectI2Iter` into `m`
row-major rows. -/
theorem pixelAt_rows (r0 : RectI2) (sz : VecI2) (hx : 0 < sz.x) :
    ∀ m : ℕ, (List.range (sz.x.toNat * m)).map
        (fun k : ℕ => RectI2Iter.pixelAt r0 sz (k : ℤ)) =
      (List.range m).flatMap fun j : ℕ =>
        (List.range sz.x.toNat).map fun i : ℕ =>
          VecI2.mk (r0.start.x + (i : ℤ)) (r0.start.y + (j : ℤ)) := by
  have hszx : ((sz.x.toNat : ℤ)) = sz.x := Int.toNat_of_nonneg (by omega)
  intro m
  induction m with
  | zero => simp
  | succ m ihm =>
    rw [Nat.mul_succ, List.range_add, List.map_append, ihm, List.range_succ,
      List.flatMap_append, List.map_map]
    congr 1
    simp only [List.flatMap_cons, List.flatMap_nil, List.append_nil]
    apply List.map_congr_left
    intro i hi
    rw [List.mem_range] at hi
    have hiz : ((i : ℤ)) < sz.x := by omega
    simp only [Function.comp_apply, RectI2Iter.pixelAt]
    have hcast : (((sz.x.toNat * m + i : ℕ)) : ℤ) = (i : ℤ) + sz.x * m := by
      push_cast [hszx]
      ring
    rw [hcast]
    have h0i : (0 : ℤ) ≤ (i : ℤ) + sz.x * m := by positivity
    have hmod : Int.tmod ((i : ℤ) + sz.x * m) sz.x = (i : ℤ) := by
      rw [Int.tmod_eq_emod h0i (by omega), Int.add_mul_emod_self_left,
        Int.emod_eq_of_lt (by positivity) hiz]
    have hdiv : Int.tdiv ((i : ℤ) + sz.x * m) sz.x = (m : ℤ) := by
      rw [Int.tdiv_eq_ediv h0i (by omega), Int.add_mul_ediv_left _ _
        (by omega : sz.x ≠ 0), Int.ediv_eq_zero_of_lt (by positivity) hiz]
      ring
    rw [hmod, hdiv]

/-- The full pixel list of `RectI2Iter` over a rectangle accepted by
`RectI2::new`: the half-open rectangle `[start.x, end.x) × [start.y, end.y)`
in row-major order, followed by one extra pixel `(start.x, end.y)` — the
`end.x` column and (except for that single pixel) the `end.y` row are never
visited. -/
theorem rectI2_toList_halfOpen (s e : VecI2) (r : RectI2)
    (hr : RectI2.new s e = some r) :
    RectI2Iter.toList (RectI2Iter.new r) =
      rowMajorWith VecI2.mk r.start.x (r.endp.x - 1) r.start.y (r.endp.y - 1)
        ++ [⟨r.start.x, r.endp.y⟩] := by
  rw [RectI2.new] at hr
  split_ifs at hr with hpos
  have hre : r = ⟨s, e⟩ := (Option.some.inj hr).symm
  subst hre
  simp only [VecI2.sub, VecI2.add, VecI2.neg] at hpos
  rw [RectI2Iter.toList_new]
  have hsz : (RectI2.mk s e).size = ⟨e.x + -s.x, e.y + -s.y⟩ := rfl
  rw [hsz]
  dsimp only
  have hxpos : (0 : ℤ) < e.x + -s.x := by omega
  have hypos : (0 : ℤ) < e.y + -s.y := by omega
  have hxc : (((e.x + -s.x).toNat : ℤ)) = e.x + -s.x :=
    Int.toNat_of_nonneg (by omega)
  have hyc : (((e.y + -s.y).toNat : ℤ)) = e.y + -s.y :=
    Int.toNat_of_nonneg (by omega)
  have hprod : ((e.x + -s.x) * (e.y + -s.y) + 1).toNat =
      (e.x + -s.x).toNat * (e.y + -s.y).toNat + 1 := by
    have h1 : (e.x + -s.x) * (e.y + -s.y) =
        (((e.x + -s.x).toNat * (e.y + -s.y).toNat : ℕ) : ℤ) := by
      push_cast [hxc, hyc]
      ring
    omega
  rw [hprod, List.range_succ, List.map_append,
    pixelAt_rows ⟨s, e⟩ ⟨e.x + -s.x, e.y + -s.y⟩ (by dsimp only; omega)]
  congr 1
  · rw [rowMajorWith]
    rw [show (e.x - 1 + 1 - s.x).toNat = (e.x + -s.x).toNat by omega,
      show (e.y - 1 + 1 - s.y).toNat = (e.y + -s.y).toNat by omega]
  · simp only [List.map_cons, List.map_nil, RectI2Iter.pixelAt]
    have hcast : ((((e.x + -s.x).toNat * (e.y + -s.y).toNat : ℕ)) : ℤ) =
        (e.x + -s.x) * (e.y + -s.y) := by
      push_cast [hxc, hyc]
      ring
    rw [hcast]
    have hmod : Int.tmod ((e.x + -s.x) * (e.y + -s.y)) (e.x + -s.x) = 0 := by
      rw [Int.tmod_eq_emod (by positivity) (by omega), Int.mul_emod_right]
    have hdiv : Int.tdiv ((e.x + -s.x) * (e.y + -s.y)) (e.x + -s.x) =
        e.y + -s.y := by
      rw [Int.tdiv_eq_ediv (by positivity) (by omega),
        Int.mul_ediv_cancel_left _ (by omega : e.x + -s.x ≠ 0)]
    rw [hmod, hdiv]
    simp only [List.cons.injEq, VecI2.mk.injEq, and_true]
    constructor <;> omega

/-- C9 counterexample: for the rectangle (0,0)–(2,2) accepted by
`RectI2::new`, the iterator used by the integer rasterizer yields
[(0,0),(1,0),(0,1),(1,1),(0,2)]: the pixel (2,0) — inside the bounding
rectangle, with both coordinates between start and end — is never
enumerated (and (0,2), below the half-open area, is emitted once). -/
theorem c9_recti2_misses_rect_pixels :
    RectI2.new ⟨0, 0⟩ ⟨2, 2⟩ = some ⟨⟨0, 0⟩, ⟨2, 2⟩⟩ ∧
    RectI2Iter.toList (RectI2Iter.new ⟨⟨0, 0⟩, ⟨2, 2⟩⟩) =
      [⟨0, 0⟩, ⟨1, 0⟩, ⟨0, 1⟩, ⟨1, 1⟩, ⟨0, 2⟩] ∧
    (⟨2, 0⟩ : VecI2) ∉ RectI2Iter.toList (RectI2Iter.new ⟨⟨0, 0⟩, ⟨2, 2⟩⟩) ∧
    (0 : ℤ) ≤ 2 ∧ (2 : ℤ) ≤ 2 := by
  refine ⟨rfl, rfl, by decide, by norm_num, by norm_num⟩

/-- C9 (amended): the float scan converter's `Rect2Iter` does enumerate
every integer pixel of the (inclusive, truncated, normalized) bounding
rectangle exactly once, in row-major order with x fastest, and nothing
outside it; the integer rasterizer's `RectI2Iter`, however, enumerates only
the half-open rectangle `[start.x, end.x) × [start.y, end.y)` (row-major)
and then yields one extra pixel `(start.x, end.y)`. -/
theorem c9_rect_iterator_enumeration (rect : Rect2) (p : VecM.Vector2 ℤ)
    (s e : VecI2) (r : RectI2) (hr : RectI2.new s e = some r) :
    (Rect2Iter.toList (Rect2Iter.new rect) =
      rowMajorWith VecM.Vector2.mk
        (min (ratTrunc rect.start.x) (ratTrunc rect.endp.x))
        (max (ratTrunc rect.start.x) (ratTrunc rect.endp.x))
        (min (ratTrunc rect.start.y) (ratTrunc rect.endp.y))
        (max (ratTrunc rect.start.y) (ratTrunc rect.endp.y))) ∧
    (List.count p (Rect2Iter.toList (Rect2Iter.new rect)) =
      if min (ratTrunc rect.start.x) (ratTrunc rect.endp.x) ≤ p.x ∧
          p.x ≤ max (ratTrunc rect.start.x) (ratTrunc rect.endp.x) ∧
          min (ratTrunc rect.start.y) (ratTrunc rect.endp.y) ≤ p.y ∧
          p.y ≤ max (ratTrunc rect.start.y) (ratTrunc rect.endp.y)
        then 1 else 0) ∧
    (RectI2Iter.toList (RectI2Iter.new r) =
      rowMajorWith VecI2.mk r.start.x (r.endp.x - 1) r.start.y (r.endp.y - 1)
        ++ [⟨r.start.x, r.endp.y⟩]) :=
  ⟨rect2_toList_eq_rowMajor rect,
   by
    rw [rect2_toList_eq_rowMajor rect]
    exact count_rowMajorWith_vec _ _ _ _ p,
   rectI2_toList_halfOpen s e r hr⟩

/-- C9 witness: the characterization applied to the unit float rectangle
(0,0)–(1,1), the pixel (0,0), and the integer rectangle (0,0)–(1,1). -/
theorem c9_rect_iterator_enumeration_witness :
    (Rect2Iter.toList (Rect2Iter.new ⟨⟨0, 0⟩, ⟨1, 1⟩⟩) =
      rowMajorWith VecM.Vector2.mk
        (min (ratTrunc (0 : ℚ)) (ratTrunc (1 : ℚ)))
        (max (ratTrunc (0 : ℚ)) (ratTrunc (1 : ℚ)))
        (min (ratTrunc (0 : ℚ)) (ratTrunc (1 : ℚ)))
        (max (ratTrunc (0 : ℚ)) (ratTrunc (1 : ℚ)))) ∧
    (List.count ⟨0, 0⟩ (Rect2Iter.toList (Rect2Iter.new ⟨⟨0, 0⟩, ⟨1, 1⟩⟩)) =
      if min (ratTrunc (0 : ℚ)) (ratTrunc (1 : ℚ)) ≤
            (⟨0, 0⟩ : VecM.Vector2 ℤ).x ∧
          (⟨0, 0⟩ : VecM.Vector2 ℤ).x ≤
            max (ratTrunc (0 : ℚ)) (ratTrunc (1 : ℚ)) ∧
          min (ratTrunc (0 : ℚ)) (ratTrunc (1 : ℚ)) ≤
            (⟨0, 0⟩ : VecM.Vector2 ℤ).y ∧
          (⟨0, 0⟩ : VecM.Vector2 ℤ).y ≤
            max (ratTrunc (0 : ℚ)) (ratTrunc (1 : ℚ))
        then 1 else 0) ∧
    (RectI2Iter.toList (RectI2Iter.new ⟨⟨0, 0⟩, ⟨1, 1⟩⟩) =
      rowMajorWith VecI2.mk 0 (1 - 1) 0 (1 - 1) ++ [⟨0, 1⟩]) :=
  c9_rect_iterator_enumeration ⟨⟨0, 0⟩, ⟨1, 1⟩⟩ ⟨0, 0⟩ ⟨0, 0⟩ ⟨1, 1⟩
    ⟨⟨0, 0⟩, ⟨1, 1⟩⟩ rfl
